import Mathlib

/-!
# Verification of the storaj Store/Collection core (`src/store.ts`)

Shallow embedding of the data model and operations of `src/store.ts`:
JavaScript values are modelled by `JsValue`, JS objects and JS `Map`s by
insertion-ordered association lists, thrown exceptions by `Except StoreError`,
and the file system (for `persist` / `initStore`) by an explicit `FileSys`
record threaded through the operations that touch it.  File contents are
stored in parsed form (`JsValue`), so `JSON.parse` applied to the text
produced by `JSON.stringify` on a well-formed document is the identity of
the model.
-/

namespace Storaj

/-- A JavaScript runtime value (the subset relevant to the store):
`undefined`, `null`, booleans, numbers, strings, arrays and plain objects.
Objects are insertion-ordered association lists of fields. -/
inductive JsValue where
  | undefined : JsValue
  | null : JsValue
  | bool (b : Bool) : JsValue
  | num (n : Int) : JsValue
  | str (s : String) : JsValue
  | arr (elems : List JsValue) : JsValue
  | obj (fields : List (String × JsValue)) : JsValue

/-- JavaScript `===` / SameValueZero comparison, as used by `Map.has` /
`Map.get` / `Map.set` keys and by the `item._id === ""` checks.
Primitives compare by value; arrays and objects compare by reference, and
since every array/object the embedded code compares is a fresh allocation,
two composite values are never `===`-equal in the model. -/
def jsKeyEq : JsValue → JsValue → Bool
  | .undefined, .undefined => true
  | .null, .null => true
  | .bool a, .bool b => a == b
  | .num a, .num b => a == b
  | .str a, .str b => a == b
  | _, _ => false

instance : BEq JsValue := ⟨jsKeyEq⟩

theorem eq_of_jsKeyEq : ∀ {a b : JsValue}, (a == b) = true → a = b := by
  intro a b h
  cases a <;> cases b <;> simp_all [BEq.beq, jsKeyEq]

theorem jsKeyEq_str (s t : String) : (JsValue.str s == JsValue.str t) = (s == t) := rfl

theorem jsKeyEq_num (m n : Int) : (JsValue.num m == JsValue.num n) = (m == n) := rfl

/-- `typeof v` for a JavaScript value. -/
def typeofVal : JsValue → String
  | .undefined => "undefined"
  | .null => "object"
  | .bool _ => "boolean"
  | .num _ => "number"
  | .str _ => "string"
  | .arr _ => "object"
  | .obj _ => "object"

def JsValue.isStr : JsValue → Bool
  | .str _ => true
  | _ => false

def JsValue.isNum : JsValue → Bool
  | .num _ => true
  | _ => false

/-! ## Insertion-ordered association lists

JS objects and JS `Map`s share lookup/update semantics: lookup finds the
entry for a key, `set`/property write replaces the value in place if the
key exists and appends a fresh entry otherwise. -/

section AList
variable {κ α : Type} [BEq κ]

/-- Lookup: first entry whose key matches. -/
def alGet : List (κ × α) → κ → Option α
  | [], _ => none
  | (k', v) :: rest, k => if k' == k then some v else alGet rest k

/-- Key-membership test (JS `Map.has` / `in`). -/
def alHas (l : List (κ × α)) (k : κ) : Bool :=
  (alGet l k).isSome

/-- `Map.set` / object property write: replace in place, else append. -/
def alSet : List (κ × α) → κ → α → List (κ × α)
  | [], k, v => [(k, v)]
  | (k', v') :: rest, k, v =>
      if k' == k then (k', v) :: rest else (k', v') :: alSet rest k v

/-- All keys pairwise distinct (w.r.t. `==`). -/
def nodupKeys : List (κ × α) → Bool
  | [] => true
  | (k, _) :: rest => !alHas rest k && nodupKeys rest

end AList

/-! ## JS objects -/

/-- The own fields of a value: a non-object has none. -/
def objFields : JsValue → List (String × JsValue)
  | .obj fields => fields
  | _ => []

/-- Property read `v[k]`: `undefined` when the key is absent or the value is
not an object. -/
def jsGet (v : JsValue) (k : String) : JsValue :=
  match alGet (objFields v) k with
  | some w => w
  | none => .undefined

/-- Object spread `{ ...base, ...extra }`: fields of `extra` written one by
one onto `base` (existing keys keep their position, fresh keys append). -/
def spreadFields (base extra : List (String × JsValue)) : List (String × JsValue) :=
  extra.foldl (fun acc kv => alSet acc kv.1 kv.2) base

/-- `itemHasProp(item, prop, type)` (src/store.ts:181-196): `false` when the
property is `undefined` or its `typeof` differs from `type`. -/
def itemHasProp (item : JsValue) (prop : String) (type : String) : Bool :=
  let value := jsGet item prop
  if value == .undefined then false
  else if typeofVal value != type then false
  else true

/-! ## Errors

Every `throw new Error(...)` site of `src/store.ts`, distinguished by its
message prefix (`InsertionError: ...`, `InvalidItemError: ...`, the
invalid-file-schema message) plus I/O failures of the `fs` calls. -/

inductive StoreError where
  | insertionIdType : StoreError
  | insertionDuplicate (id : JsValue) (collName : String) : StoreError
  | invalidEmptyId : StoreError
  | invalidEmptyCollection : StoreError
  | invalidItemProps : StoreError
  | invalidFileSchema : StoreError
  | ioError (path : String) : StoreError

/-- The `InsertionError:`-prefixed errors. -/
def StoreError.isInsertionError : StoreError → Bool
  | .insertionIdType => true
  | .insertionDuplicate _ _ => true
  | _ => false

/-- The `InvalidItemError:`-prefixed errors. -/
def StoreError.isInvalidItemError : StoreError → Bool
  | .invalidEmptyId => true
  | .invalidEmptyCollection => true
  | .invalidItemProps => true
  | _ => false

def exceptOk : Except StoreError Unit → Bool
  | .ok _ => true
  | .error _ => false

/-! ## File system

`persist` and `initStore` touch the disk through `existsSync`, `mkdirSync`,
`readFileSync`, `writeFile` and `path.dirname`.  The model keeps a set of
existing directories and a map from path to the *parsed* JSON document the
file holds. -/

structure FileSys where
  dirs : List String
  files : List (String × JsValue)

/-- Node's POSIX `path.dirname`: everything before the last `/` of the
basename, with Node's special cases for roots and trailing slashes. -/
def dirname (p : String) : String :=
  if p.isEmpty then "."
  else
    let cs := p.data
    let hasRoot : Bool := cs.head? == some '/'
    let r := (cs.drop 1).reverse
    let r2 := (r.dropWhile (fun c => c == '/')).dropWhile (fun c => c != '/')
    if r2.isEmpty then (if hasRoot then "/" else ".")
    else if hasRoot && r2.length == 1 then "//"
    else String.mk (cs.take r2.length)

/-- `existsSync` on a directory path. -/
def FileSys.hasDir (fs : FileSys) (d : String) : Bool :=
  fs.dirs.contains d

/-- Non-recursive `mkdirSync`: fails with `ENOENT` when the parent of the
directory to create does not itself exist. -/
def FileSys.mkdir (fs : FileSys) (d : String) : Except StoreError FileSys :=
  if fs.hasDir (dirname d) then .ok { fs with dirs := d :: fs.dirs }
  else .error (.ioError d)

/-- `readFileSync` + `JSON.parse`: fails with `ENOENT` when the file is
absent (file contents are stored in parsed form). -/
def FileSys.readFile (fs : FileSys) (p : String) : Except StoreError JsValue :=
  match alGet fs.files p with
  | some v => .ok v
  | none => .error (.ioError p)

/-- `writeFile`: whole-file replacement. -/
def FileSys.writeFile (fs : FileSys) (p : String) (v : JsValue) : FileSys :=
  { fs with files := alSet fs.files p v }

/-! ## Collection (src/store.ts:18-97)

`Collection` holds its `name` and the insertion-ordered `Map<Index, Item>`
`_items`.  The `_onUpdate` closure is not stored in the model: the source
passes `this.persist` *unbound* (`new Collection(collection, this.persist)`,
src/store.ts:138), so when `insert` runs `await this._onUpdate()`
(src/store.ts:59), the dynamic receiver inside `persist` is the Collection,
whose `fPath` is `undefined`; the `if (!this.fPath) return;` guard
(src/store.ts:170) therefore always fires and the hook never touches the
file system.  `Collection.insert` below reflects that behaviour. -/

structure Collection where
  name : String
  items : List (JsValue × JsValue)

/-- `_validateInsert` (src/store.ts:28-42). -/
def Collection.validateInsert (c : Collection) (item : JsValue) : Except StoreError Unit :=
  let idIsValid := itemHasProp item "_id" "string" || itemHasProp item "_id" "number"
  if !idIsValid then
    .error .insertionIdType
  else if alHas c.items (jsGet item "_id") then
    .error (.insertionDuplicate (jsGet item "_id") c.name)
  else
    .ok ()

/-- `_putInMap` (src/store.ts:44-51).  `id? = none` models an omitted /
`undefined` argument; `uuid` is the string `randomUUID()` returns in that
case (the generator's nondeterminism made explicit). -/
def Collection.putInMap (c : Collection) (object : List (String × JsValue))
    (id? : Option JsValue) (uuid : String) : Except StoreError Collection :=
  let id := id?.getD (.str uuid)
  let item : JsValue := .obj (spreadFields [("_id", id)] object)
  match c.validateInsert item with
  | .error e => .error e
  | .ok _ => .ok { c with items := alSet c.items (jsGet item "_id") item }

/-- `insertSync` (src/store.ts:64-66): `_putInMap` without persistence. -/
def Collection.insertSync (c : Collection) (object : List (String × JsValue))
    (id? : Option JsValue) (uuid : String) : Except StoreError Collection :=
  c.putInMap object id? uuid

/-- `insert` (src/store.ts:57-60): `_putInMap`, then `await this._onUpdate()`.
Because the stored hook is the unbound `Store.persist` (see the section
comment), the hook's no-path guard always fires: the await resolves and the
file system is returned unchanged. -/
def Collection.insert (c : Collection) (object : List (String × JsValue))
    (id? : Option JsValue) (uuid : String) (fs : FileSys) :
    Except StoreError (Collection × FileSys) :=
  match c.putInMap object id? uuid with
  | .error e => .error e
  | .ok c' => .ok (c', fs)

/-- `_insertNoSave` (src/store.ts:83-87). -/
def Collection.insertNoSave (c : Collection) (item : JsValue) : Except StoreError Collection :=
  match c.validateInsert item with
  | .error e => .error e
  | .ok _ => .ok { c with items := alSet c.items (jsGet item "_id") item }

/-- `get` (src/store.ts:68-74); `none` models the `null` result. -/
def Collection.get (c : Collection) (id : JsValue) : Option JsValue :=
  alGet c.items id

/-- `all` (src/store.ts:90-92): `Array.from(this._items.values())`. -/
def Collection.all (c : Collection) : List JsValue :=
  c.items.map Prod.snd

/-- `count` (src/store.ts:94-96). -/
def Collection.count (c : Collection) : Nat :=
  c.items.length

/-- The observable result of calling `insertSync` under JS exception
semantics: on a throw the collection is whatever the method left behind —
the model mirrors the source's statement order, where `_validateInsert`
runs before `_items.set`, so the error branch carries the pre-call state. -/
def Collection.insertSyncRun (c : Collection) (object : List (String × JsValue))
    (id? : Option JsValue) (uuid : String) : Collection × Option StoreError :=
  match c.insertSync object id? uuid with
  | .ok c' => (c', none)
  | .error e => (c, some e)

/-- The observable result of `_insertNoSave` under JS exception semantics
(`_validateInsert` throws before `_items.set` runs). -/
def Collection.insertNoSaveRun (c : Collection) (item : JsValue) :
    Collection × Option StoreError :=
  match c.insertNoSave item with
  | .ok c' => (c', none)
  | .error e => (c, some e)

/-! ## Validation of tagged records (src/store.ts:181-227) -/

/-- `validateSerializedItem` (src/store.ts:198-227): empty-string id, then
empty-string collection name, then presence/typing of both reserved keys. -/
def validateSerializedItem (item : JsValue) : Except StoreError Unit :=
  if jsGet item "_id" == .str "" then
    .error .invalidEmptyId
  else if jsGet item "_collection" == .str "" then
    .error .invalidEmptyCollection
  else if !((itemHasProp item "_id" "string" || itemHasProp item "_id" "number") &&
      itemHasProp item "_collection" "string") then
    .error .invalidItemProps
  else
    .ok ()

/-! ## Store (src/store.ts:99-179) -/

structure Store where
  fPath : String
  colls : List (String × Collection)

/-- `collections` (src/store.ts:135-142): get-or-create by name.  Returns
the collection together with the updated registry (the source returns a
live reference into `_collections`). -/
def Store.collectionsOp (s : Store) (cname : String) : Collection × Store :=
  match alGet s.colls cname with
  | some ref => (ref, s)
  | none =>
      let ref : Collection := ⟨cname, []⟩
      (ref, { s with colls := alSet s.colls cname ref })

/-- `hasCollection` (src/store.ts:144-146). -/
def Store.hasCollection (s : Store) (cname : String) : Bool :=
  alHas s.colls cname

/-- `collNames` (src/store.ts:150-152). -/
def Store.collNames (s : Store) : List String :=
  s.colls.map Prod.fst

/-- The body shared verbatim by the `forEach` loops of `initStore`
(src/store.ts:127-132) and `storeFromObjects` (src/store.ts:239-244):
validate the tagged record, get-or-create its collection, split off the two
reserved keys and `_insertNoSave` the record `{ _id, ...data }`.
After `validateSerializedItem` succeeds, `item._collection` is a string;
the non-string branch below is unreachable. -/
def Store.rebuildInsert (s : Store) (item : JsValue) : Except StoreError Store :=
  match validateSerializedItem item with
  | .error e => .error e
  | .ok _ =>
      match jsGet item "_collection" with
      | .str cname =>
          let (c, s1) := s.collectionsOp cname
          let data := (objFields item).filter
            (fun kv => kv.1 != "_id" && kv.1 != "_collection")
          let newItem : JsValue := .obj (spreadFields [("_id", jsGet item "_id")] data)
          match c.insertNoSave newItem with
          | .error e => .error e
          | .ok c' => .ok { s1 with colls := alSet s1.colls cname c' }
      | _ => .error .invalidItemProps

/-- The `forEach` loop over a parsed tagged-record array. -/
def Store.buildInto (s : Store) (data : List JsValue) : Except StoreError Store :=
  match data with
  | [] => .ok s
  | item :: rest =>
      match s.rebuildInsert item with
      | .error e => .error e
      | .ok s' => s'.buildInto rest

/-- `new Store(fPath)` = constructor (src/store.ts:109-113) + `initStore`
(src/store.ts:115-133): no path, or a missing parent directory, yields the
fresh empty store; otherwise the file is read, its parse must be an array,
and each element is validated and replayed through `_insertNoSave`.
The loader only reads: it takes the file system but returns none, matching
the absence of any write call in `initStore`. -/
def newStore (fPath : String) (fs : FileSys) : Except StoreError Store :=
  let s : Store := ⟨fPath, []⟩
  if fPath = "" then .ok s
  else if !fs.hasDir (dirname fPath) then .ok s
  else
    match fs.readFile fPath with
    | .error e => .error e
    | .ok content =>
        match content with
        | .arr fileData => s.buildInto fileData
        | _ => .error .invalidFileSchema

/-- One collection's contribution to `serialize` (src/store.ts:157-163):
`collection.all().map(({ _id, ...rest }) => ({ _id, _collection: name, ...rest }))`. -/
def Collection.serializedItems (c : Collection) : List JsValue :=
  c.all.map (fun item =>
    let rest := (objFields item).filter (fun kv => kv.1 != "_id")
    JsValue.obj (spreadFields
      [("_id", jsGet item "_id"), ("_collection", .str c.name)] rest))

/-- `serialize` (src/store.ts:154-167) up to `JSON.stringify`: the flat
tagged-record array, collections in registration order, records in
insertion order. -/
def Store.serializeItems (s : Store) : List JsValue :=
  s.colls.foldl (fun acc kv => acc ++ kv.2.serializedItems) []

/-- The body of `serialize`'s per-record map (src/store.ts:159-163), as a
standalone function: `({ _id, ...rest }) => ({ _id, _collection: name,
...rest })`. -/
def taggedItem (name : String) (item : JsValue) : JsValue :=
  .obj (spreadFields
    [("_id", jsGet item "_id"), ("_collection", .str name)]
    ((objFields item).filter (fun kv => kv.1 != "_id")))

/-- `persist` (src/store.ts:169-178), called directly on the store (so the
receiver is the store itself): no-op without a path; otherwise ensure the
parent directory (non-recursive `mkdirSync`) and overwrite the file with
the serialized array. -/
def Store.persist (s : Store) (fs : FileSys) : Except StoreError FileSys :=
  if s.fPath = "" then .ok fs
  else
    let folderName := dirname s.fPath
    match (if !fs.hasDir folderName then fs.mkdir folderName else .ok fs) with
    | .error e => .error e
    | .ok fs1 => .ok (fs1.writeFile s.fPath (.arr s.serializeItems))

/-- A persisted insert as a caller performs it: obtain the collection from
the store (`store.collections(name)`), then `collection.insert(...)`.
The collection's `_onUpdate` hook is the unbound `Store.persist`
(src/store.ts:138), so its dynamic receiver has no `fPath` and the hook
returns without writing (see `Collection.insert`). -/
def Store.insertVia (s : Store) (cname : String) (object : List (String × JsValue))
    (id? : Option JsValue) (uuid : String) (fs : FileSys) :
    Except StoreError (Store × FileSys) :=
  let (c, s1) := s.collectionsOp cname
  match c.insert object id? uuid fs with
  | .error e => .error e
  | .ok (c', fs') => .ok ({ s1 with colls := alSet s1.colls cname c' }, fs')

/-- `storeFromObjects` (src/store.ts:229-246): construct `new
Store(storePath)` (which may itself load the file at `storePath`), then
replay every tagged record.  The argument's `List` type renders the
`instanceof Array` guard; a `Store` is returned only if nothing throws. -/
def storeFromObjects (storedData : List JsValue) (storePath : String)
    (fs : FileSys) : Except StoreError Store :=
  match newStore storePath fs with
  | .error e => .error e
  | .ok store => store.buildInto storedData

/-! ## Well-formed stores

The state-space predicates used by the round-trip theorem.  They describe
exactly the stores reachable through the API under the conditions of the
amended round-trip claim: records were created by the insertion paths (so
each stored item is an object headed by its `_id` field and keyed by it),
identifiers are non-empty strings or numbers, no user field reuses a
reserved key, field values are JSON-representable, and every registered
collection is non-empty. -/

mutual

/-- The value survives `JSON.parse(JSON.stringify(-))` unchanged: no
`undefined` anywhere (stringify drops or nullifies those). -/
def noUndefVal : JsValue → Bool
  | .undefined => false
  | .null => true
  | .bool _ => true
  | .num _ => true
  | .str _ => true
  | .arr xs => noUndefList xs
  | .obj fields => noUndefFields fields

def noUndefList : List JsValue → Bool
  | [] => true
  | x :: xs => noUndefVal x && noUndefList xs

def noUndefFields : List (String × JsValue) → Bool
  | [] => true
  | kv :: rest => noUndefVal kv.2 && noUndefFields rest

end

/-- An identifier as the insertion paths accept and serialization preserves
it: a non-empty string or a number. -/
def idTypeOk : JsValue → Bool
  | .str s => s ≠ ""
  | .num _ => true
  | _ => false

/-- User fields of a stored record: keys pairwise distinct, neither
reserved key among them, values JSON-representable. -/
def fieldsOk (fields : List (String × JsValue)) : Bool :=
  nodupKeys fields &&
    fields.all (fun kv => kv.1 != "_id" && kv.1 != "_collection") &&
    noUndefFields fields

/-- A stored record under its map key `k`: the object `{ _id: k, ...fields }`
produced by the insertion paths, with a well-typed id and clean fields. -/
def wfItem (k : JsValue) (item : JsValue) : Bool :=
  match item with
  | .obj ((kh, k0) :: fields) =>
      kh == "_id" && k0 == k && idTypeOk k && fieldsOk fields
  | _ => false

/-- A registered collection under its registry key `name`: consistent name,
non-empty name, at least one record, distinct identifiers, each record
well-formed. -/
def wfColl (name : String) (c : Collection) : Bool :=
  c.name == name && name ≠ "" && !c.items.isEmpty &&
    nodupKeys c.items && c.items.all (fun kv => wfItem kv.1 kv.2)

/-- A store whose every collection is well-formed under a duplicate-free
registry. -/
def wfStore (s : Store) : Bool :=
  nodupKeys s.colls && s.colls.all (fun kv => wfColl kv.1 kv.2)

/-- No record in any collection of the store is keyed by the empty-string
identifier. -/
def noEmptyIds (s : Store) : Bool :=
  s.colls.all (fun kv => kv.2.items.all (fun it => !(it.1 == JsValue.str "")))

/-- The collection registered under `cn` (if any) has a record keyed `v`. -/
def collHasId (s : Store) (cn : String) (v : JsValue) : Bool :=
  match alGet s.colls cn with
  | some c => alHas c.items v
  | none => false

/-- The duplicate-id `InsertionError`. -/
def StoreError.isDuplicate : StoreError → Bool
  | .insertionDuplicate _ _ => true
  | _ => false

/-! ## Association-list lemmas -/

instance : PartialEquivBEq JsValue where
  symm := by
    intro a b h
    cases a <;> cases b <;> simp_all [BEq.beq, jsKeyEq]
  trans := by
    intro a b c hab hbc
    cases a <;> cases b <;> cases c <;> simp_all [BEq.beq, jsKeyEq]

theorem jsKeyEq_self_of_idTypeOk {k : JsValue} (h : idTypeOk k = true) :
    (k == k) = true := by
  cases k <;> simp_all [BEq.beq, jsKeyEq, idTypeOk]

section AListLemmas

variable {κ : Type} {α : Type} [BEq κ]

theorem alGet_of_not_has {l : List (κ × α)} {k : κ} (h : alHas l k = false) :
    alGet l k = none := by
  unfold alHas at h
  cases hg : alGet l k
  · rfl
  · rw [hg] at h; simp at h

theorem alHas_of_get_some {l : List (κ × α)} {k : κ} {v : α}
    (h : alGet l k = some v) : alHas l k = true := by
  unfold alHas; rw [h]; rfl

theorem alSet_append_of_not_has {l : List (κ × α)} {k : κ} {v : α}
    (h : alHas l k = false) : alSet l k v = l ++ [(k, v)] := by
  induction l with
  | nil => rfl
  | cons hd tl ih =>
      obtain ⟨kh, vh⟩ := hd
      unfold alHas alGet at h
      by_cases hk : (kh == k) = true
      · rw [hk] at h; simp at h
      · rw [Bool.not_eq_true] at hk
        rw [hk] at h
        simp only [alSet, hk, Bool.false_eq_true, if_false, List.cons_append,
          List.cons.injEq, true_and]
        exact ih h

theorem alGet_append_of_some {l l₂ : List (κ × α)} {k : κ} {v : α}
    (h : alGet l k = some v) : alGet (l ++ l₂) k = some v := by
  induction l with
  | nil => simp [alGet] at h
  | cons hd tl ih =>
      obtain ⟨kh, vh⟩ := hd
      unfold alGet at h ⊢
      by_cases hk : (kh == k) = true <;> simp only [hk] at h ⊢ <;> simp_all

theorem alGet_append_of_none {l l₂ : List (κ × α)} {k : κ}
    (h : alGet l k = none) : alGet (l ++ l₂) k = alGet l₂ k := by
  induction l with
  | nil => rfl
  | cons hd tl ih =>
      obtain ⟨kh, vh⟩ := hd
      simp only [List.cons_append, alGet] at h ⊢
      by_cases hk : (kh == k) = true
      · rw [hk] at h; simp at h
      · rw [Bool.not_eq_true] at hk
        simp only [hk, Bool.false_eq_true, if_false] at h ⊢
        exact ih h

theorem alHas_append {l l₂ : List (κ × α)} {k : κ} :
    alHas (l ++ l₂) k = (alHas l k || alHas l₂ k) := by
  unfold alHas
  cases hg : alGet l k
  · rw [alGet_append_of_none hg]; simp
  · rw [alGet_append_of_some hg]; simp

theorem alGet_alSet_self {l : List (κ × α)} {k : κ} {v : α}
    (hk : (k == k) = true) : alGet (alSet l k v) k = some v := by
  induction l with
  | nil => simp [alSet, alGet, hk]
  | cons hd tl ih =>
      obtain ⟨kh, vh⟩ := hd
      by_cases hkh : (kh == k) = true
      · simp [alSet, alGet, hkh]
      · rw [Bool.not_eq_true] at hkh
        simp [alSet, alGet, hkh, ih]

theorem alHas_alSet_self {l : List (κ × α)} {k : κ} {v : α}
    (hk : (k == k) = true) : alHas (alSet l k v) k = true := by
  unfold alHas; rw [alGet_alSet_self hk]; rfl

theorem alHas_alSet_mono {l : List (κ × α)} {k k' : κ} {v : α}
    (h : alHas l k' = true) : alHas (alSet l k v) k' = true := by
  induction l with
  | nil => simp [alHas, alGet] at h
  | cons hd tl ih =>
      obtain ⟨kh, vh⟩ := hd
      unfold alHas alGet at h
      by_cases hkh : (kh == k) = true <;>
        by_cases hk' : (kh == k') = true <;>
        simp only [alSet, alHas, alGet, hkh, hk', if_true, if_false,
          Bool.false_eq_true] <;> simp_all [alHas]

theorem alGet_alSet_ne [LawfulBEq κ] {l : List (κ × α)} {k k' : κ} {v : α}
    (h : k' ≠ k) : alGet (alSet l k' v) k = alGet l k := by
  induction l with
  | nil => simp [alSet, alGet, h]
  | cons hd tl ih =>
      obtain ⟨kh, vh⟩ := hd
      by_cases hkh : (kh == k') = true
      · have : kh = k' := by simp_all
        subst this
        simp only [alSet, hkh, if_true, alGet]
        have : (kh == k) = false := by simp [h]
        simp [this]
      · rw [Bool.not_eq_true] at hkh
        simp only [alSet, hkh, Bool.false_eq_true, if_false, alGet]
        by_cases hk : (kh == k) = true <;> simp_all

theorem nodupKeys_append_singleton [PartialEquivBEq κ]
    {l : List (κ × α)} {k : κ} {v : α}
    (h1 : nodupKeys l = true) (h2 : alHas l k = false) :
    nodupKeys (l ++ [(k, v)]) = true := by
  induction l with
  | nil => simp [nodupKeys, alHas, alGet]
  | cons hd tl ih =>
      obtain ⟨kh, vh⟩ := hd
      unfold nodupKeys at h1
      unfold alHas alGet at h2
      by_cases hkh : (kh == k) = true
      · rw [hkh] at h2; simp at h2
      · rw [Bool.not_eq_true] at hkh
        rw [hkh] at h2
        simp only [Bool.and_eq_true, Bool.not_eq_true'] at h1
        simp only [List.cons_append, nodupKeys, Bool.and_eq_true, Bool.not_eq_true']
        constructor
        · show alHas (tl ++ [(k, v)]) kh = false
          rw [alHas_append]
          simp only [h1.1, Bool.false_or]
          have : (k == kh) = false := by
            cases hkk : (k == kh)
            · rfl
            · exact absurd (BEq.symm hkk) (by simp [hkh])
          simp [this, alHas, alGet]
        · exact ih h1.2 h2

theorem alSet_append_last {l : List (κ × α)} {k : κ} {c c' : α}
    (h : alHas l k = false) (hk : (k == k) = true) :
    alSet (l ++ [(k, c)]) k c' = l ++ [(k, c')] := by
  induction l with
  | nil => simp [alSet, hk]
  | cons hd tl ih =>
      obtain ⟨kh, vh⟩ := hd
      unfold alHas alGet at h
      by_cases hkh : (kh == k) = true
      · rw [hkh] at h; simp at h
      · rw [Bool.not_eq_true] at hkh
        rw [hkh] at h
        simp only [List.cons_append, alSet, hkh, Bool.false_eq_true, if_false,
          List.cons.injEq, true_and]
        exact ih h

theorem alGet_append_last {l : List (κ × α)} {k : κ} {c : α}
    (h : alHas l k = false) (hk : (k == k) = true) :
    alGet (l ++ [(k, c)]) k = some c := by
  rw [alGet_append_of_none (alGet_of_not_has h)]
  simp [alGet, hk]

end AListLemmas

/-- Spreading fields none of whose keys is `k` does not disturb the binding
of `k`. -/
theorem alGet_spreadFields_of_not_has {base extra : List (String × JsValue)} {k : String}
    (h : alHas extra k = false) :
    alGet (spreadFields base extra) k = alGet base k := by
  induction extra generalizing base with
  | nil => rfl
  | cons hd tl ih =>
      obtain ⟨kh, vh⟩ := hd
      simp only [alHas, alGet] at h
      by_cases hk : (kh == k) = true
      · rw [hk] at h; simp at h
      · rw [Bool.not_eq_true] at hk
        simp only [hk, Bool.false_eq_true, if_false] at h
        show alGet (spreadFields (alSet base kh vh) tl) k = alGet base k
        rw [ih h, alGet_alSet_ne (by intro hkk; subst hkk; simp at hk)]

/-- `typeof v === "string"` detects exactly the strings. -/
theorem typeof_string_iff {v : JsValue} : (typeofVal v == "string") = v.isStr := by
  cases v <;> rfl

/-- `typeof v === "number"` detects exactly the numbers. -/
theorem typeof_number_iff {v : JsValue} : (typeofVal v == "number") = v.isNum := by
  cases v <;> rfl

/-- The `_id` binding placed by `{ _id: id, ...object }` when `object` does
not itself carry an `"_id"` field. -/
theorem jsGet_spread_id (object : List (String × JsValue)) (v : JsValue)
    (h : alHas object "_id" = false) :
    jsGet (.obj (spreadFields [("_id", v)] object)) "_id" = v := by
  unfold jsGet objFields
  rw [alGet_spreadFields_of_not_has h]
  simp [alGet]

/-- `itemHasProp item prop "string"` holds exactly when the property is a
string (the `undefined` guard is subsumed: `typeof undefined` is
`"undefined"`). -/
theorem itemHasProp_string {item : JsValue} {prop : String} :
    itemHasProp item prop "string" = (jsGet item prop).isStr := by
  unfold itemHasProp
  cases h : jsGet item prop <;> simp [typeofVal, JsValue.isStr, BEq.beq, jsKeyEq]

/-- `itemHasProp item prop "number"` holds exactly when the property is a
number. -/
theorem itemHasProp_number {item : JsValue} {prop : String} :
    itemHasProp item prop "number" = (jsGet item prop).isNum := by
  unfold itemHasProp
  cases h : jsGet item prop <;> simp [typeofVal, JsValue.isNum, BEq.beq, jsKeyEq]

/-- `_validateInsert` only ever throws the two `InsertionError`s. -/
theorem validateInsert_error_isInsertion {c : Collection} {item : JsValue} {e : StoreError}
    (h : c.validateInsert item = .error e) : e.isInsertionError = true := by
  simp only [Collection.validateInsert] at h
  split at h
  · cases h; rfl
  · split at h
    · cases h; rfl
    · cases h

/-- Success condition of `_validateInsert`. -/
theorem validateInsert_ok_iff {c : Collection} {item : JsValue} :
    c.validateInsert item = .ok () ↔
      (((jsGet item "_id").isStr || (jsGet item "_id").isNum) = true ∧
        alHas c.items (jsGet item "_id") = false) := by
  simp only [Collection.validateInsert, itemHasProp_string, itemHasProp_number]
  constructor
  · intro h
    split at h
    · cases h
    · split at h
      · cases h
      · rename_i h1 h2
        rw [Bool.not_eq_true] at h1 h2
        rw [Bool.not_eq_false'] at h1
        exact ⟨h1, h2⟩
  · intro ⟨h1, h2⟩
    rw [h1]
    simp [h2]

/-- `_putInMap` throws only `InsertionError`s. -/
theorem putInMap_error_isInsertion {c : Collection} {o : List (String × JsValue)}
    {i : Option JsValue} {u : String} {e : StoreError}
    (h : c.putInMap o i u = .error e) : e.isInsertionError = true := by
  simp only [Collection.putInMap] at h
  split at h
  · rename_i heq; cases h; exact validateInsert_error_isInsertion heq
  · cases h

/-- `_insertNoSave` throws only `InsertionError`s. -/
theorem insertNoSave_error_isInsertion {c : Collection} {item : JsValue} {e : StoreError}
    (h : c.insertNoSave item = .error e) : e.isInsertionError = true := by
  simp only [Collection.insertNoSave] at h
  split at h
  · rename_i heq; cases h; exact validateInsert_error_isInsertion heq
  · cases h

/-- `_validateInsert` rejects with the id-type `InsertionError` when the id
is neither a string nor a number. -/
theorem validateInsert_idType {c : Collection} {item : JsValue}
    (h1 : (jsGet item "_id").isStr = false) (h2 : (jsGet item "_id").isNum = false) :
    c.validateInsert item = .error .insertionIdType := by
  simp only [Collection.validateInsert, itemHasProp_string, itemHasProp_number, h1, h2]
  rfl

/-- `_validateInsert` rejects with the duplicate-id `InsertionError` when
the (well-typed) id is already a key of the map. -/
theorem validateInsert_dup (c : Collection) (item : JsValue)
    (h1 : ((jsGet item "_id").isStr || (jsGet item "_id").isNum) = true)
    (h2 : alHas c.items (jsGet item "_id") = true) :
    c.validateInsert item = .error (.insertionDuplicate (jsGet item "_id") c.name) := by
  simp only [Collection.validateInsert, itemHasProp_string, itemHasProp_number, h1, h2]
  rfl

/-- `_putInMap` with an explicit id reduces to `_validateInsert`'s verdict
on `{ _id: id, ...object }`. -/
theorem putInMap_eq_error {c : Collection} {o : List (String × JsValue)} {i : JsValue}
    {u : String} {e : StoreError}
    (hv : c.validateInsert (.obj (spreadFields [("_id", i)] o)) = .error e) :
    c.putInMap o (some i) u = .error e := by
  simp only [Collection.putInMap, Option.getD_some, hv]

/-- Shape of a successful `_putInMap` with an explicit id. -/
theorem putInMap_ok_shape {c : Collection} {o : List (String × JsValue)} {i : JsValue}
    {u : String} {c' : Collection}
    (h : c.putInMap o (some i) u = .ok c') :
    c.validateInsert (.obj (spreadFields [("_id", i)] o)) = .ok () ∧
      c' = ⟨c.name, alSet c.items (jsGet (JsValue.obj (spreadFields [("_id", i)] o)) "_id")
        (JsValue.obj (spreadFields [("_id", i)] o))⟩ := by
  simp only [Collection.putInMap, Option.getD_some] at h
  split at h
  · cases h
  · rename_i u hv
    cases h
    exact ⟨hv, rfl⟩

/-- A string or number compares `===`-equal to itself (reference semantics
never enters for primitives). -/
theorem beq_self_of_strnum {v : JsValue} (h : (v.isStr || v.isNum) = true) :
    (v == v) = true := by
  cases v <;> simp_all [JsValue.isStr, JsValue.isNum, BEq.beq, jsKeyEq]

/-- **C3.** Every insertion that fails with an `InsertionError` — through
`insert`/`insertSync` (both delegate to `_putInMap`) or `_insertNoSave` —
leaves the collection's record map exactly as it was before the call:
`_validateInsert` throws before `_items.set` runs, so the offending record
is never added and no existing record changes; and the error is always one
of the two `InsertionError`s (id of wrong type, or id already present). -/
theorem failed_insertion_leaves_collection_unchanged :
    (∀ (c : Collection) (object : List (String × JsValue)) (id? : Option JsValue)
        (uuid : String) (e : StoreError),
        (c.insertSyncRun object id? uuid).2 = some e →
        (c.insertSyncRun object id? uuid).1 = c ∧ e.isInsertionError = true) ∧
    (∀ (c : Collection) (item : JsValue) (e : StoreError),
        (c.insertNoSaveRun item).2 = some e →
        (c.insertNoSaveRun item).1 = c ∧ e.isInsertionError = true) := by
  constructor
  · intro c object id? uuid e h
    unfold Collection.insertSyncRun at h ⊢
    cases hr : c.insertSync object id? uuid with
    | ok c' => rw [hr] at h; simp at h
    | error e' =>
        rw [hr] at h
        simp only [Option.some.injEq] at h
        subst h
        exact ⟨rfl, putInMap_error_isInsertion hr⟩
  · intro c item e h
    unfold Collection.insertNoSaveRun at h ⊢
    cases hr : c.insertNoSave item with
    | ok c' => rw [hr] at h; simp at h
    | error e' =>
        rw [hr] at h
        simp only [Option.some.injEq] at h
        subst h
        exact ⟨rfl, insertNoSave_error_isInsertion hr⟩

theorem failed_insertion_leaves_collection_unchanged_witness :
    (Collection.insertSyncRun ⟨"users", []⟩ [] (some (.bool true)) "u").1 = ⟨"users", []⟩ ∧
      StoreError.isInsertionError .insertionIdType = true :=
  failed_insertion_leaves_collection_unchanged.1 ⟨"users", []⟩ [] (some (.bool true)) "u"
    .insertionIdType rfl

/-- **C9.** An insertion whose explicitly supplied identifier is neither a
string nor a number (boolean, object, array, `null`, …) fails with the
id-type `InsertionError` on every insertion path, and the record is not
added (the run returns the unchanged collection). -/
theorem wrong_typed_id_insertion_fails :
    (∀ (c : Collection) (object : List (String × JsValue)) (v : JsValue) (uuid : String),
        v.isStr = false → v.isNum = false → alHas object "_id" = false →
        c.insertSyncRun object (some v) uuid = (c, some .insertionIdType)) ∧
    (∀ (c : Collection) (item : JsValue),
        (jsGet item "_id").isStr = false → (jsGet item "_id").isNum = false →
        c.insertNoSaveRun item = (c, some .insertionIdType)) := by
  constructor
  · intro c object v uuid h1 h2 hobj
    have hid := jsGet_spread_id object v hobj
    have hv : c.validateInsert (.obj (spreadFields [("_id", v)] object)) =
        .error .insertionIdType :=
      validateInsert_idType (by rw [hid]; exact h1) (by rw [hid]; exact h2)
    unfold Collection.insertSyncRun Collection.insertSync
    rw [putInMap_eq_error hv]
  · intro c item h1 h2
    unfold Collection.insertNoSaveRun
    have hv : c.validateInsert item = .error .insertionIdType := validateInsert_idType h1 h2
    simp only [Collection.insertNoSave, hv]

theorem wrong_typed_id_insertion_fails_witness :
    Collection.insertSyncRun ⟨"users", []⟩ [("x", .null)] (some (.arr [])) "u" =
      (⟨"users", []⟩, some .insertionIdType) :=
  wrong_typed_id_insertion_fails.1 ⟨"users", []⟩ [("x", .null)] (.arr []) "u" rfl rfl rfl

/-- **C2.** Once a record with identifier `v` has been inserted (here by a
successful `insert`/`insertSync`, i.e. `_putInMap`), any second insertion
with the same identifier into the same collection fails with the
duplicate-id `InsertionError` on every path (`insert`/`insertSync` via
`_putInMap`, and `_insertNoSave`); `get v` afterwards still returns the
first record; and a duplicate-free map stays duplicate-free, so no two
records in one collection ever share an identifier. -/
theorem duplicate_id_second_insertion_fails :
    ∀ (c : Collection) (object₀ : List (String × JsValue)) (v : JsValue)
      (uuid₀ : String) (c₁ : Collection),
      alHas object₀ "_id" = false →
      c.putInMap object₀ (some v) uuid₀ = .ok c₁ →
      (∀ (object : List (String × JsValue)) (uuid : String),
          alHas object "_id" = false →
          c₁.putInMap object (some v) uuid = .error (.insertionDuplicate v c.name)) ∧
      (∀ item : JsValue, jsGet item "_id" = v →
          c₁.insertNoSave item = .error (.insertionDuplicate v c.name)) ∧
      c₁.get v = some (.obj (spreadFields [("_id", v)] object₀)) ∧
      (nodupKeys c.items = true → nodupKeys c₁.items = true) := by
  intro c object₀ v uuid₀ c₁ hobj₀ hput
  obtain ⟨hval, hc₁⟩ := putInMap_ok_shape hput
  have hid₀ := jsGet_spread_id object₀ v hobj₀
  rw [validateInsert_ok_iff] at hval
  rw [hid₀] at hval
  obtain ⟨hty, hfresh⟩ := hval
  have hkk : (v == v) = true := beq_self_of_strnum hty
  rw [hid₀] at hc₁
  have hhas : alHas c₁.items v = true := by
    rw [hc₁]; exact alHas_alSet_self hkk
  have hname : c₁.name = c.name := by rw [hc₁]
  refine ⟨?_, ?_, ?_, ?_⟩
  · intro object uuid hobj
    have hid := jsGet_spread_id object v hobj
    have hv : c₁.validateInsert (.obj (spreadFields [("_id", v)] object)) =
        .error (.insertionDuplicate v c.name) := by
      have := validateInsert_dup c₁ (.obj (spreadFields [("_id", v)] object))
        (by rw [hid]; exact hty) (by rw [hid]; exact hhas)
      rw [hid, hname] at this
      exact this
    exact putInMap_eq_error hv
  · intro item hitem
    have hv : c₁.validateInsert item = .error (.insertionDuplicate v c.name) := by
      have := validateInsert_dup c₁ item
        (by rw [hitem]; exact hty) (by rw [hitem]; exact hhas)
      rw [hitem, hname] at this
      exact this
    simp only [Collection.insertNoSave, hv]
  · show alGet c₁.items v = some _
    rw [hc₁]
    exact alGet_alSet_self hkk
  · intro hnd
    rw [hc₁]
    rw [alSet_append_of_not_has hfresh]
    exact nodupKeys_append_singleton hnd hfresh

theorem duplicate_id_second_insertion_fails_witness :
    Collection.putInMap ⟨"users", [(.num 1, .obj [("_id", .num 1), ("name", .str "a")])]⟩
        [] (some (.num 1)) "w" = .error (.insertionDuplicate (.num 1) "users") ∧
      Collection.get ⟨"users", [(.num 1, .obj [("_id", .num 1), ("name", .str "a")])]⟩
        (.num 1) = some (.obj [("_id", .num 1), ("name", .str "a")]) := by
  have h := duplicate_id_second_insertion_fails ⟨"users", []⟩ [("name", .str "a")]
    (.num 1) "u" ⟨"users", [(.num 1, .obj [("_id", .num 1), ("name", .str "a")])]⟩ rfl rfl
  exact ⟨h.1 [] "w" rfl, h.2.2.1⟩

/-- `===`-comparison with a string literal is equality with it. -/
theorem jsbeq_str_iff {v : JsValue} {s : String} : (v == .str s) = true ↔ v = .str s := by
  cases v <;> simp [BEq.beq, jsKeyEq]

/-- **C6.** `validateSerializedItem` fails exactly when the identifier
field `_id` is the empty string, the collection-name field `_collection`
is the empty string, or either field is absent or wrongly typed (id not a
string or number, collection name not a string); every error it throws is
an `InvalidItemError`; and the concrete scenario
`storeFromObjects [{_id: "", _collection: "x"}]` fails with the empty-id
`InvalidItemError`. -/
theorem validateSerializedItem_spec :
    (∀ item : JsValue,
        exceptOk (validateSerializedItem item) = false ↔
          (jsGet item "_id" = .str "" ∨ jsGet item "_collection" = .str "" ∨
            ((jsGet item "_id").isStr = false ∧ (jsGet item "_id").isNum = false) ∨
            (jsGet item "_collection").isStr = false)) ∧
    (∀ (item : JsValue) (e : StoreError),
        validateSerializedItem item = .error e → e.isInvalidItemError = true) ∧
    (∀ fs : FileSys,
        storeFromObjects [.obj [("_id", .str ""), ("_collection", .str "x")]] "" fs =
          .error .invalidEmptyId) := by
  refine ⟨?_, ?_, ?_⟩
  · intro item
    simp only [validateSerializedItem, itemHasProp_string, itemHasProp_number]
    split
    · rename_i h
      simp only [exceptOk]
      simpa using Or.inl (jsbeq_str_iff.mp h)
    · split
      · rename_i h1 h2
        simp only [exceptOk]
        simpa using Or.inr (Or.inl (jsbeq_str_iff.mp h2))
      · split
        · rename_i h1 h2 h3
          simp only [exceptOk]
          rw [Bool.not_eq_true'] at h3
          simp only [Bool.and_eq_false_iff, Bool.or_eq_false_iff] at h3
          simp only [eq_self_iff_true, true_iff]
          rcases h3 with ⟨ha, hb⟩ | hc
          · exact Or.inr (Or.inr (Or.inl ⟨ha, hb⟩))
          · exact Or.inr (Or.inr (Or.inr hc))
        · rename_i h1 h2 h3
          rw [Bool.not_eq_true] at h1 h2
          rw [Bool.not_eq_true] at h3
          rw [Bool.not_eq_false'] at h3
          simp only [Bool.and_eq_true, Bool.or_eq_true] at h3
          simp only [exceptOk]
          constructor
          · intro hh; cases hh
          · intro hr
            exfalso
            rcases hr with h | h | ⟨ha, hb⟩ | h
            · rw [← jsbeq_str_iff] at h; rw [h] at h1; cases h1
            · rw [← jsbeq_str_iff] at h; rw [h] at h2; cases h2
            · rcases h3.1 with hs | hn
              · rw [ha] at hs; cases hs
              · rw [hb] at hn; cases hn
            · rw [h3.2] at h; cases h
  · intro item e h
    simp only [validateSerializedItem] at h
    split at h
    · cases h; rfl
    · split at h
      · cases h; rfl
      · split at h
        · cases h; rfl
        · cases h
  · intro fs
    rfl

theorem validateSerializedItem_spec_witness :
    StoreError.isInvalidItemError .invalidEmptyCollection = true :=
  validateSerializedItem_spec.2.1 (.obj [("_id", .num 1), ("_collection", .str "")])
    .invalidEmptyCollection rfl

/-- **C4.** Construction with a non-empty path (`new Store(p)` running
`initStore`): a missing parent directory silently skips loading and yields
the empty store (not an error); with the parent present, the file is read
(`ENOENT` when absent — so contents are loaded exactly when directory and
file both exist), a non-array parse fails with the file-schema error, and
an array is replayed record-by-record through the no-persist
`_insertNoSave` path (`Store.buildInto`); the loader takes the file system
read-only and returns none — no write-back during load. -/
theorem initStore_spec :
    (∀ (p : String) (fs : FileSys), p ≠ "" → fs.hasDir (dirname p) = false →
        newStore p fs = .ok ⟨p, []⟩) ∧
    (∀ (p : String) (fs : FileSys), p ≠ "" → fs.hasDir (dirname p) = true →
        alGet fs.files p = none → newStore p fs = .error (.ioError p)) ∧
    (∀ (p : String) (fs : FileSys) (elems : List JsValue), p ≠ "" →
        fs.hasDir (dirname p) = true → alGet fs.files p = some (.arr elems) →
        newStore p fs = Store.buildInto ⟨p, []⟩ elems) ∧
    (∀ (p : String) (fs : FileSys) (v : JsValue), p ≠ "" →
        fs.hasDir (dirname p) = true → alGet fs.files p = some v →
        (∀ l, v ≠ .arr l) → newStore p fs = .error .invalidFileSchema) := by
  refine ⟨?_, ?_, ?_, ?_⟩
  · intro p fs hp hdir
    simp [newStore, hp, hdir]
  · intro p fs hp hdir hfile
    simp [newStore, hp, hdir, FileSys.readFile, hfile]
  · intro p fs elems hp hdir hfile
    simp [newStore, hp, hdir, FileSys.readFile, hfile]
  · intro p fs v hp hdir hfile hne
    simp only [newStore, if_neg hp, hdir, Bool.not_true, Bool.false_eq_true, if_false,
      FileSys.readFile, hfile]

theorem initStore_spec_witness :
    newStore "d/f" ⟨[], []⟩ = .ok ⟨"d/f", []⟩ ∧
      newStore "d/f" ⟨["d"], []⟩ = .error (.ioError "d/f") ∧
      newStore "d/f" ⟨["d"], [("d/f", .num 3)]⟩ = .error .invalidFileSchema :=
  ⟨initStore_spec.1 "d/f" ⟨[], []⟩ (by decide) rfl,
   initStore_spec.2.1 "d/f" ⟨["d"], []⟩ (by decide) rfl rfl,
   initStore_spec.2.2.2 "d/f" ⟨["d"], [("d/f", .num 3)]⟩ (.num 3) (by decide) rfl rfl
     (by intro l h; cases h)⟩

/-- **C7.** With no path configured, `persist()` is a no-op returning the
file system unchanged (and a persisted insert on such a store also leaves
it unchanged — in-memory stores never touch a file; the loader side is
`initStore_spec`); with a path configured, `persist()` ensures the parent
directory — creating it when missing via the non-recursive `mkdirSync`,
which itself fails when the grandparent is absent — and replaces the
file's entire contents with the serialized flat tagged-record array. -/
theorem persist_spec :
    (∀ (s : Store) (fs : FileSys), s.fPath = "" → s.persist fs = .ok fs) ∧
    (∀ (s : Store) (cname : String) (object : List (String × JsValue))
        (id? : Option JsValue) (uuid : String) (fs : FileSys) (s' : Store) (fs' : FileSys),
        s.fPath = "" → s.insertVia cname object id? uuid fs = .ok (s', fs') → fs' = fs) ∧
    (∀ (s : Store) (fs : FileSys), s.fPath ≠ "" → fs.hasDir (dirname s.fPath) = true →
        s.persist fs = .ok ⟨fs.dirs, alSet fs.files s.fPath (.arr s.serializeItems)⟩) ∧
    (∀ (s : Store) (fs : FileSys), s.fPath ≠ "" → fs.hasDir (dirname s.fPath) = false →
        fs.hasDir (dirname (dirname s.fPath)) = true →
        s.persist fs =
          .ok ⟨dirname s.fPath :: fs.dirs, alSet fs.files s.fPath (.arr s.serializeItems)⟩) ∧
    (∀ (s : Store) (fs : FileSys), s.fPath ≠ "" → fs.hasDir (dirname s.fPath) = false →
        fs.hasDir (dirname (dirname s.fPath)) = false →
        s.persist fs = .error (.ioError (dirname s.fPath))) := by
  refine ⟨?_, ?_, ?_, ?_, ?_⟩
  · intro s fs hp
    simp [Store.persist, hp]
  · intro s cname object id? uuid fs s' fs' hp h
    simp only [Store.insertVia] at h
    split at h
    · cases h
    · rename_i c' fs'' heq
      simp only [Collection.insert] at heq
      split at heq
      · cases heq
      · cases heq
        cases h
        rfl
  · intro s fs hp hdir
    simp [Store.persist, hp, hdir, FileSys.writeFile]
  · intro s fs hp hdir hpar
    simp [Store.persist, hp, hdir, FileSys.mkdir, hpar, FileSys.writeFile]
  · intro s fs hp hdir hpar
    simp [Store.persist, hp, hdir, FileSys.mkdir, hpar]

theorem persist_spec_witness :
    Store.persist ⟨"", [("users", ⟨"users", []⟩)]⟩ ⟨[], []⟩ = .ok ⟨[], []⟩ ∧
      Store.persist ⟨"/data/db.json", []⟩ ⟨["/data"], []⟩ =
        .ok ⟨["/data"], [("/data/db.json", .arr [])]⟩ ∧
      Store.persist ⟨"/data/db.json", []⟩ ⟨["/"], []⟩ =
        .ok ⟨["/data", "/"], [("/data/db.json", .arr [])]⟩ ∧
      Store.persist ⟨"/data/db.json", []⟩ ⟨[], []⟩ = .error (.ioError "/data") := by
  refine ⟨persist_spec.1 _ _ rfl, ?_, ?_, ?_⟩
  · have h := persist_spec.2.2.1 ⟨"/data/db.json", []⟩ ⟨["/data"], []⟩ (by decide) rfl
    exact h
  · have h := persist_spec.2.2.2.1 ⟨"/data/db.json", []⟩ ⟨["/"], []⟩ (by decide) rfl rfl
    exact h
  · have h := persist_spec.2.2.2.2 ⟨"/data/db.json", []⟩ ⟨[], []⟩ (by decide) rfl rfl
    exact h

/-- **C8 (code bug).** `collection.insert` performs exactly the in-memory
insertion of `insertSync` and then awaits the `_onUpdate` hook — but the
hook is the *unbound* `Store.persist` (`new Collection(collection,
this.persist)`, src/store.ts:138): invoked as `this._onUpdate()` its
receiver is the Collection, whose `fPath` is `undefined`, so the
`if (!this.fPath) return` guard fires and nothing is written.  Evaluated
at a store with a configured path whose parent directory exists: the
insert succeeds and matches the `insertSync` state, yet the file system
still has no file — while a direct `store.persist()` call on the same
state does create the file.  The spec (§4.1, §5) requires the persisted
insert to write; the code never does. -/
theorem insert_never_persists_despite_path :
    Store.insertVia ⟨"/data/db.json", []⟩ "users" [("name", .str "a")] (some (.num 1)) "u"
        ⟨["/data"], []⟩ =
      .ok (⟨"/data/db.json",
        [("users", ⟨"users", [(.num 1, .obj [("_id", .num 1), ("name", .str "a")])]⟩)]⟩,
        ⟨["/data"], []⟩) ∧
      Collection.insertSync ⟨"users", []⟩ [("name", .str "a")] (some (.num 1)) "u" =
        .ok ⟨"users", [(.num 1, .obj [("_id", .num 1), ("name", .str "a")])]⟩ ∧
      Store.persist
          ⟨"/data/db.json",
            [("users", ⟨"users", [(.num 1, .obj [("_id", .num 1), ("name", .str "a")])]⟩)]⟩
          ⟨["/data"], []⟩ =
        .ok ⟨["/data"], [("/data/db.json",
          .arr [.obj [("_id", .num 1), ("_collection", .str "users"), ("name", .str "a")]])]⟩ :=
  ⟨rfl, rfl, rfl⟩

/-! ## The rebuild loop: shape and invariants -/

theorem isStr_shape {v : JsValue} (h : v.isStr = true) : ∃ s, v = .str s := by
  cases v <;> simp_all [JsValue.isStr]

/-- What a successful `validateSerializedItem` run guarantees. -/
theorem validateSerializedItem_ok_facts {item : JsValue} {u : Unit}
    (h : validateSerializedItem item = .ok u) :
    (jsGet item "_id" == JsValue.str "") = false ∧
      ((jsGet item "_id").isStr || (jsGet item "_id").isNum) = true ∧
      ∃ cn : String, jsGet item "_collection" = .str cn ∧ cn ≠ "" := by
  simp only [validateSerializedItem, itemHasProp_string, itemHasProp_number] at h
  split at h
  · cases h
  · rename_i h1
    split at h
    · cases h
    · rename_i h2
      split at h
      · cases h
      · rename_i h3
        rw [Bool.not_eq_true] at h1 h2
        rw [Bool.not_eq_true] at h3
        rw [Bool.not_eq_false'] at h3
        rw [Bool.and_eq_true] at h3
        refine ⟨h1, h3.1, ?_⟩
        obtain ⟨cn, hjc⟩ := isStr_shape h3.2
        refine ⟨cn, hjc, ?_⟩
        intro hcn
        subst hcn
        rw [hjc] at h2
        simp [BEq.beq, jsKeyEq] at h2

/-- Shape of a successful `_insertNoSave`. -/
theorem insertNoSave_ok_shape {c c' : Collection} {item : JsValue}
    (h : c.insertNoSave item = .ok c') :
    c.validateInsert item = .ok () ∧
      c' = ⟨c.name, alSet c.items (jsGet item "_id") item⟩ := by
  simp only [Collection.insertNoSave] at h
  split at h
  · cases h
  · rename_i u hv
    cases h
    exact ⟨hv, rfl⟩

/-- Shape of `collections` (get-or-create). -/
theorem collectionsOp_shape (s : Store) (cn : String) {c : Collection} {s1 : Store}
    (h : s.collectionsOp cn = (c, s1)) :
    (alGet s.colls cn = some c ∧ s1 = s) ∨
    (alHas s.colls cn = false ∧ c = ⟨cn, []⟩ ∧
      s1 = ⟨s.fPath, s.colls ++ [(cn, Collection.mk cn [])]⟩) := by
  simp only [Store.collectionsOp] at h
  split at h
  · rename_i ref hget
    cases h
    exact Or.inl ⟨hget, rfl⟩
  · rename_i hget
    have hhas : alHas s.colls cn = false := by unfold alHas; rw [hget]; rfl
    cases h
    refine Or.inr ⟨hhas, rfl, ?_⟩
    rw [alSet_append_of_not_has hhas]

section AllLemmas

variable {κ : Type} {α : Type} [BEq κ]

theorem all_keys_alSet (q : κ → Bool) {l : List (κ × α)} {k : κ} {v : α}
    (hl : l.all (fun kv => q kv.1) = true) (hk : q k = true) :
    (alSet l k v).all (fun kv => q kv.1) = true := by
  induction l with
  | nil => simp [alSet, hk]
  | cons hd tl ih =>
      obtain ⟨kh, vh⟩ := hd
      simp only [List.all_cons, Bool.and_eq_true] at hl
      by_cases hkh : (kh == k) = true
      · simp only [alSet, hkh, if_true, List.all_cons, Bool.and_eq_true]
        exact ⟨hl.1, hl.2⟩
      · rw [Bool.not_eq_true] at hkh
        simp only [alSet, hkh, Bool.false_eq_true, if_false, List.all_cons, Bool.and_eq_true]
        exact ⟨hl.1, ih hl.2⟩

theorem all_values_alSet (p : α → Bool) {l : List (κ × α)} {k : κ} {v : α}
    (hl : l.all (fun kv => p kv.2) = true) (hv : p v = true) :
    (alSet l k v).all (fun kv => p kv.2) = true := by
  induction l with
  | nil => simp [alSet, hv]
  | cons hd tl ih =>
      obtain ⟨kh, vh⟩ := hd
      simp only [List.all_cons, Bool.and_eq_true] at hl
      by_cases hkh : (kh == k) = true
      · simp only [alSet, hkh, if_true, List.all_cons, Bool.and_eq_true]
        exact ⟨hv, hl.2⟩
      · rw [Bool.not_eq_true] at hkh
        simp only [alSet, hkh, Bool.false_eq_true, if_false, List.all_cons, Bool.and_eq_true]
        exact ⟨hl.1, ih hl.2⟩

theorem alGet_some_of_all_values (p : α → Bool) {l : List (κ × α)} {k : κ} {v : α}
    (hl : l.all (fun kv => p kv.2) = true) (h : alGet l k = some v) : p v = true := by
  induction l with
  | nil => simp [alGet] at h
  | cons hd tl ih =>
      obtain ⟨kh, vh⟩ := hd
      simp only [List.all_cons, Bool.and_eq_true] at hl
      simp only [alGet] at h
      by_cases hkh : (kh == k) = true
      · rw [if_pos hkh] at h
        cases h
        exact hl.1
      · rw [Bool.not_eq_true] at hkh
        simp only [hkh, Bool.false_eq_true, if_false] at h
        exact ih hl.2 h

theorem alHas_filter_ne {l : List (κ × α)} {k : κ} {p : κ × α → Bool}
    (hp : ∀ kv, p kv = true → (kv.1 == k) = false) :
    alHas (l.filter p) k = false := by
  induction l with
  | nil => rfl
  | cons hd tl ih =>
      by_cases hph : p hd = true
      · rw [List.filter_cons_of_pos hph]
        obtain ⟨kh, vh⟩ := hd
        have := hp _ hph
        simp only [alHas, alGet, this, Bool.false_eq_true, if_false] at *
        exact ih
      · rw [Bool.not_eq_true] at hph
        rw [List.filter_cons_of_neg (by simp [hph])]
        exact ih

end AllLemmas

/-- The key under which `rebuildInsert` stores the rebuilt record is the
tagged record's own `_id` (the reserved keys are filtered out of `data`,
so the spread cannot override it). -/
theorem rebuiltItem_id (item : JsValue) :
    jsGet (.obj (spreadFields [("_id", jsGet item "_id")]
      ((objFields item).filter (fun kv => kv.1 != "_id" && kv.1 != "_collection")))) "_id" =
      jsGet item "_id" := by
  apply jsGet_spread_id
  apply alHas_filter_ne
  intro kv hkv
  rw [Bool.and_eq_true] at hkv
  have := hkv.1
  rw [bne_iff_ne] at this
  simp [this]

/-- One `rebuildInsert` step preserves "no empty-string identifiers":
`validateSerializedItem` has already rejected `""`, and the record is
stored under exactly its `_id`. -/
theorem rebuildInsert_noEmptyIds {s s' : Store} {item : JsValue}
    (h : s.rebuildInsert item = .ok s') (hs : noEmptyIds s = true) :
    noEmptyIds s' = true := by
  simp only [Store.rebuildInsert] at h
  split at h
  · cases h
  · rename_i u hv
    split at h
    · rename_i cn hcn
      rcases hcop : s.collectionsOp cn with ⟨c, s1⟩
      rw [hcop] at h
      simp only at h
      split at h
      · cases h
      · rename_i c' hins
        cases h
        obtain ⟨hval, hc'⟩ := insertNoSave_ok_shape hins
        obtain ⟨hid_ne, hty, -⟩ := validateSerializedItem_ok_facts hv
        have hkey := rebuiltItem_id item
        have hq : (!(jsGet item "_id" == JsValue.str "")) = true := by
          rw [hid_ne]; rfl
        unfold noEmptyIds at hs ⊢
        have hs1 : s1.colls.all
            (fun kv => kv.2.items.all (fun it => !(it.1 == JsValue.str ""))) = true := by
          rcases collectionsOp_shape s cn hcop with ⟨hget, hs1⟩ | ⟨hhas, hc, hs1⟩
          · rw [hs1]; exact hs
          · rw [hs1]
            simp only [List.all_append, Bool.and_eq_true]
            exact ⟨hs, by rfl⟩
        have hcall : c.items.all (fun it => !(it.1 == JsValue.str "")) = true := by
          rcases collectionsOp_shape s cn hcop with ⟨hget, hs1⟩ | ⟨hhas, hc, hs1⟩
          · exact alGet_some_of_all_values
              (fun c0 : Collection => c0.items.all (fun it => !(it.1 == JsValue.str ""))) hs hget
          · rw [hc]; rfl
        have hc'all : c'.items.all (fun it => !(it.1 == JsValue.str "")) = true := by
          rw [hc']
          simp only
          rw [hkey]
          exact all_keys_alSet (fun k => !(k == JsValue.str "")) hcall hq
        exact all_values_alSet
          (fun c0 : Collection => c0.items.all (fun it => !(it.1 == JsValue.str ""))) hs1 hc'all
    · cases h

/-- The rebuild loop preserves "no empty-string identifiers". -/
theorem buildInto_noEmptyIds {data : List JsValue} {s s' : Store}
    (h : s.buildInto data = .ok s') (hs : noEmptyIds s = true) :
    noEmptyIds s' = true := by
  induction data generalizing s with
  | nil =>
      simp only [Store.buildInto] at h
      cases h
      exact hs
  | cons item rest ih =>
      simp only [Store.buildInto] at h
      split at h
      · cases h
      · rename_i s1 hstep
        exact ih h (rebuildInsert_noEmptyIds hstep hs)

/-- Every store `new Store(...)` can construct satisfies the invariant. -/
theorem newStore_noEmptyIds {p : String} {fs : FileSys} {s : Store}
    (h : newStore p fs = .ok s) : noEmptyIds s = true := by
  simp only [newStore] at h
  split at h
  · cases h; rfl
  · split at h
    · cases h; rfl
    · split at h
      · cases h
      · rename_i content hread
        split at h
        · exact buildInto_noEmptyIds h rfl
        · cases h

/-- **C5 counterexample.** The claim quantifies over *every* insertion
path, but `_validateInsert` (the only check run by `insert`, `insertSync`
and `_insertNoSave`) tests the identifier's `typeof` and uniqueness only —
`""` is a string, so `insertSync(record, "")` succeeds and a record whose
identifier is the empty string *is* added, and `get("")` returns it. -/
theorem empty_string_id_is_insertable :
    Collection.insertSync ⟨"users", []⟩ [] (some (.str "")) "u" =
      .ok ⟨"users", [(.str "", .obj [("_id", .str "")])]⟩ ∧
      Collection.get ⟨"users", [(.str "", .obj [("_id", .str "")])]⟩ (.str "") =
        some (.obj [("_id", .str "")]) :=
  ⟨rfl, rfl⟩

/-- **C5 amended.** Only the validated tagged-record paths reject the
empty-string identifier: any store successfully produced by
`storeFromObjects` (including the file-loading `new Store(path)` it begins
with) contains no record keyed by `""` — `validateSerializedItem` rejects
such a record with `InvalidItemError` before it is ever inserted.  The
direct insertion paths enforce no such rule (see the counterexample). -/
theorem built_store_has_no_empty_string_id :
    ∀ (data : List JsValue) (path : String) (fs : FileSys) (s' : Store),
      storeFromObjects data path fs = .ok s' → noEmptyIds s' = true := by
  intro data path fs s' h
  simp only [storeFromObjects] at h
  split at h
  · cases h
  · rename_i s0 hnew
    exact buildInto_noEmptyIds h (newStore_noEmptyIds hnew)

theorem built_store_has_no_empty_string_id_witness :
    noEmptyIds ⟨"", [("x", ⟨"x", [(.num 1, .obj [("_id", .num 1)])]⟩)]⟩ = true :=
  built_store_has_no_empty_string_id [.obj [("_id", .num 1), ("_collection", .str "x")]]
    "" ⟨[], []⟩ ⟨"", [("x", ⟨"x", [(.num 1, .obj [("_id", .num 1)])]⟩)]⟩ rfl

/-! ## Duplicate identifiers during a bulk rebuild -/

/-- What `_validateInsert` can throw, and when. -/
theorem validateInsert_error_cases {c : Collection} {item : JsValue} {e : StoreError}
    (h : c.validateInsert item = .error e) :
    (((jsGet item "_id").isStr || (jsGet item "_id").isNum) = false ∧
        e = .insertionIdType) ∨
      (alHas c.items (jsGet item "_id") = true ∧
        e = .insertionDuplicate (jsGet item "_id") c.name) := by
  simp only [Collection.validateInsert, itemHasProp_string, itemHasProp_number] at h
  split at h
  · rename_i h1
    rw [Bool.not_eq_true'] at h1
    cases h
    exact Or.inl ⟨h1, rfl⟩
  · split at h
    · rename_i h1 h2
      cases h
      exact Or.inr ⟨h2, rfl⟩
    · cases h

/-- `_insertNoSave` propagates `_validateInsert`'s exception. -/
theorem insertNoSave_eq_error {c : Collection} {item : JsValue} {e : StoreError}
    (hv : c.validateInsert item = .error e) : c.insertNoSave item = .error e := by
  simp only [Collection.insertNoSave, hv]

/-- Reading `collHasId` through a known registry entry. -/
theorem collHasId_of_get {s : Store} {cn : String} {v : JsValue} {c : Collection}
    (hget : alGet s.colls cn = some c) : collHasId s cn v = alHas c.items v := by
  simp only [collHasId, hget]

/-- `collHasId` of an unregistered collection name. -/
theorem collHasId_of_none {s : Store} {cn : String} {v : JsValue}
    (hget : alGet s.colls cn = none) : collHasId s cn v = false := by
  simp only [collHasId, hget]

/-- The error thrown by a failing `_insertNoSave` comes from
`_validateInsert`. -/
theorem insertNoSave_error_shape {c : Collection} {item : JsValue} {e : StoreError}
    (h : c.insertNoSave item = .error e) : c.validateInsert item = .error e := by
  simp only [Collection.insertNoSave] at h
  split at h
  · rename_i hvv
    cases h
    exact hvv
  · cases h

/-- A `rebuildInsert` step on an individually valid record can only fail
with the duplicate-id `InsertionError`. -/
theorem rebuildInsert_error_of_valid {s : Store} {r : JsValue} {e : StoreError}
    (hv : validateSerializedItem r = .ok ()) (h : s.rebuildInsert r = .error e) :
    e.isDuplicate = true := by
  obtain ⟨-, hty, cn, hcn, -⟩ := validateSerializedItem_ok_facts hv
  simp only [Store.rebuildInsert, hv, hcn] at h
  rcases hcop : s.collectionsOp cn with ⟨c, s1⟩
  rw [hcop] at h
  simp only at h
  split at h
  · rename_i e' hins
    cases h
    rcases validateInsert_error_cases (insertNoSave_error_shape hins) with
      ⟨hbad, -⟩ | ⟨-, hdup⟩
    · rw [rebuiltItem_id, hty] at hbad
      cases hbad
    · rw [hdup]
      rfl
  · cases h

/-- A `rebuildInsert` step stores the record under its collection tag and
its identifier. -/
theorem rebuildInsert_adds {s s' : Store} {r : JsValue} {cn : String}
    (hv : validateSerializedItem r = .ok ()) (hcn : jsGet r "_collection" = .str cn)
    (h : s.rebuildInsert r = .ok s') :
    collHasId s' cn (jsGet r "_id") = true := by
  obtain ⟨-, hty, -⟩ := validateSerializedItem_ok_facts hv
  simp only [Store.rebuildInsert, hv, hcn] at h
  rcases hcop : s.collectionsOp cn with ⟨c, s1⟩
  rw [hcop] at h
  simp only at h
  split at h
  · cases h
  · rename_i c' hins
    cases h
    obtain ⟨-, hc'⟩ := insertNoSave_ok_shape hins
    rw [collHasId_of_get (alGet_alSet_self (by simp))]
    rw [hc']
    show alHas (alSet c.items _ _) _ = true
    rw [rebuiltItem_id]
    exact alHas_alSet_self (beq_self_of_strnum hty)

/-- A `rebuildInsert` step never removes an identifier from a collection. -/
theorem rebuildInsert_mono {s s' : Store} {r : JsValue} {cn₀ : String} {v : JsValue}
    (h : s.rebuildInsert r = .ok s') (hhas : collHasId s cn₀ v = true) :
    collHasId s' cn₀ v = true := by
  simp only [Store.rebuildInsert] at h
  split at h
  · cases h
  · rename_i u hv
    split at h
    · rename_i cn hcn
      rcases hcop : s.collectionsOp cn with ⟨c, s1⟩
      rw [hcop] at h
      simp only at h
      split at h
      · cases h
      · rename_i c' hins
        cases h
        cases hget0 : alGet s.colls cn₀ with
        | none => rw [collHasId_of_none hget0] at hhas; cases hhas
        | some c0 =>
            rw [collHasId_of_get hget0] at hhas
            by_cases hcc : cn = cn₀
            · subst hcc
              rw [collHasId_of_get (alGet_alSet_self (by simp))]
              obtain ⟨-, hc'⟩ := insertNoSave_ok_shape hins
              rw [hc']
              show alHas (alSet c.items _ _) _ = true
              rcases collectionsOp_shape s cn hcop with ⟨hget, -⟩ | ⟨hhas2, -, -⟩
              · rw [hget0] at hget
                cases hget
                exact alHas_alSet_mono hhas
              · rw [alHas_of_get_some hget0] at hhas2
                cases hhas2
            · have hget1 : alGet s1.colls cn₀ = some c0 := by
                rcases collectionsOp_shape s cn hcop with ⟨-, hs1⟩ | ⟨-, -, hs1⟩
                · rw [hs1]
                  exact hget0
                · rw [hs1]
                  exact alGet_append_of_some hget0
              rw [collHasId_of_get
                (by rw [show Store.colls ⟨s1.fPath, alSet s1.colls cn c'⟩ =
                      alSet s1.colls cn c' from rfl, alGet_alSet_ne hcc]
                    exact hget1)]
              exact hhas
    · cases h

/-- A `rebuildInsert` step on a valid record whose identifier is already
present in its tagged collection fails with the duplicate-id error. -/
theorem rebuildInsert_dup {s : Store} {r : JsValue} {cn : String}
    (hv : validateSerializedItem r = .ok ()) (hcn : jsGet r "_collection" = .str cn)
    (hhas : collHasId s cn (jsGet r "_id") = true) :
    ∃ nm, s.rebuildInsert r = .error (.insertionDuplicate (jsGet r "_id") nm) := by
  obtain ⟨-, hty, -⟩ := validateSerializedItem_ok_facts hv
  simp only [Store.rebuildInsert, hv, hcn]
  rcases hcop : s.collectionsOp cn with ⟨c, s1⟩
  simp only
  cases hget0 : alGet s.colls cn with
  | none => rw [collHasId_of_none hget0] at hhas; cases hhas
  | some c0 =>
      rw [collHasId_of_get hget0] at hhas
      have hcc0 : c = c0 := by
        rcases collectionsOp_shape s cn hcop with ⟨hget, -⟩ | ⟨hhas2, -, -⟩
        · rw [hget0] at hget
          cases hget
          rfl
        · rw [alHas_of_get_some hget0] at hhas2
          cases hhas2
      subst hcc0
      have hverr : c.validateInsert (.obj (spreadFields [("_id", jsGet r "_id")]
          ((objFields r).filter (fun kv => kv.1 != "_id" && kv.1 != "_collection")))) =
          .error (.insertionDuplicate (jsGet r "_id") c.name) := by
        have hx := validateInsert_dup c
          (.obj (spreadFields [("_id", jsGet r "_id")]
            ((objFields r).filter (fun kv => kv.1 != "_id" && kv.1 != "_collection"))))
          (by rw [rebuiltItem_id]; exact hty)
          (by rw [rebuiltItem_id]; exact hhas)
        rw [rebuiltItem_id] at hx
        exact hx
      rw [insertNoSave_eq_error hverr]
      exact ⟨c.name, rfl⟩


/-- Splitting the rebuild loop across an append. -/
theorem buildInto_append {a b : List JsValue} : ∀ {s : Store},
    s.buildInto (a ++ b) =
      match s.buildInto a with
      | .error e => .error e
      | .ok s1 => s1.buildInto b := by
  induction a with
  | nil => intro s; rfl
  | cons x xs ih =>
      intro s
      simp only [List.cons_append, Store.buildInto]
      split
      · rfl
      · exact ih

/-- The rebuild loop over individually valid records can only fail with
the duplicate-id `InsertionError`. -/
theorem buildInto_error_isDuplicate {data : List JsValue} {s : Store} {e : StoreError}
    (hall : ∀ r ∈ data, validateSerializedItem r = .ok ())
    (h : s.buildInto data = .error e) : e.isDuplicate = true := by
  induction data generalizing s with
  | nil => simp only [Store.buildInto] at h; cases h
  | cons item rest ih =>
      simp only [Store.buildInto] at h
      split at h
      · rename_i e' hstep
        cases h
        exact rebuildInsert_error_of_valid (hall item (by simp)) hstep
      · rename_i s1 hstep
        exact ih (fun r hr => hall r (by simp [hr])) h

/-- The rebuild loop never removes an identifier from a collection. -/
theorem buildInto_mono {data : List JsValue} {s s' : Store} {cn : String} {v : JsValue}
    (h : s.buildInto data = .ok s') (hhas : collHasId s cn v = true) :
    collHasId s' cn v = true := by
  induction data generalizing s with
  | nil => simp only [Store.buildInto] at h; cases h; exact hhas
  | cons item rest ih =>
      simp only [Store.buildInto] at h
      split at h
      · cases h
      · rename_i s1 hstep
        exact ih h (rebuildInsert_mono hstep hhas)

/-- With the default (empty) path, `storeFromObjects` is exactly the
rebuild loop on a fresh empty store. -/
theorem storeFromObjects_empty_path {data : List JsValue} {fs : FileSys} :
    storeFromObjects data "" fs = Store.buildInto ⟨"", []⟩ data := rfl

theorem buildInto_append_ok {a b : List JsValue} {s s1 : Store}
    (h : s.buildInto a = .ok s1) : s.buildInto (a ++ b) = s1.buildInto b := by
  rw [buildInto_append, h]

theorem buildInto_append_error {a b : List JsValue} {s : Store} {e : StoreError}
    (h : s.buildInto a = .error e) : s.buildInto (a ++ b) = .error e := by
  rw [buildInto_append, h]

theorem buildInto_cons_ok {s s1 : Store} {x : JsValue} {rest : List JsValue}
    (h : s.rebuildInsert x = .ok s1) : s.buildInto (x :: rest) = s1.buildInto rest := by
  simp only [Store.buildInto, h]

theorem buildInto_cons_error {s : Store} {e : StoreError} {x : JsValue}
    {rest : List JsValue} (h : s.rebuildInsert x = .error e) :
    s.buildInto (x :: rest) = .error e := by
  simp only [Store.buildInto, h]

theorem isDuplicate_shape {e : StoreError} (h : e.isDuplicate = true) :
    ∃ v nm, e = .insertionDuplicate v nm := by
  cases e <;> first
    | exact ⟨_, _, rfl⟩
    | cases h

/-- **C10 counterexample.** The claim quantifies over every array merely
*containing* two individually valid duplicate records; when an invalid
record precedes them, the per-record validation throws first, so the build
fails with `InvalidItemError`, not `InsertionError`.  Here records 2 and 3
are individually valid and share `_id` and `_collection`, yet the build
fails with the empty-id `InvalidItemError` raised on record 1. -/
theorem invalid_record_masks_duplicate_pair :
    storeFromObjects
        [.obj [("_id", .str ""), ("_collection", .str "x")],
         .obj [("_id", .num 1), ("_collection", .str "x")],
         .obj [("_id", .num 1), ("_collection", .str "x")]] "" ⟨[], []⟩ =
      .error .invalidEmptyId ∧
      validateSerializedItem (.obj [("_id", .num 1), ("_collection", .str "x")]) = .ok () ∧
      StoreError.isInsertionError .invalidEmptyId = false ∧
      StoreError.isInvalidItemError .invalidEmptyId = true :=
  ⟨rfl, rfl, rfl, rfl⟩

/-- **C10 amended.** When every record of the input array is individually
valid and two records (at any two positions) share the same `_id` and the
same `_collection`, `storeFromObjects` fails with the duplicate-id
`InsertionError` — never an `InvalidItemError` — raised by the
duplicate-id check of the per-record rebuild, and no store is returned. -/
theorem all_valid_duplicate_pair_build_fails :
    ∀ (l₁ l₂ l₃ : List JsValue) (r r' : JsValue) (fs : FileSys),
      (∀ x ∈ l₁ ++ (r :: (l₂ ++ (r' :: l₃))), validateSerializedItem x = .ok ()) →
      jsGet r "_id" = jsGet r' "_id" →
      jsGet r "_collection" = jsGet r' "_collection" →
      ∃ v nm, storeFromObjects (l₁ ++ (r :: (l₂ ++ (r' :: l₃)))) "" fs =
        .error (.insertionDuplicate v nm) := by
  intro l₁ l₂ l₃ r r' fs hall hid hcoll
  have hvr : validateSerializedItem r = .ok () := hall r (by simp)
  have hvr' : validateSerializedItem r' = .ok () := hall r' (by simp)
  obtain ⟨-, htyr, cn, hcnr, -⟩ := validateSerializedItem_ok_facts hvr
  cases hb1 : Store.buildInto ⟨"", []⟩ l₁ with
  | error e =>
      obtain ⟨v, nm, he⟩ := isDuplicate_shape
        (buildInto_error_isDuplicate (fun x hx => hall x (by simp [hx])) hb1)
      refine ⟨v, nm, ?_⟩
      rw [storeFromObjects_empty_path, buildInto_append_error hb1, he]
  | ok s1 =>
      cases hstep : s1.rebuildInsert r with
      | error e =>
          obtain ⟨v, nm, he⟩ := isDuplicate_shape (rebuildInsert_error_of_valid hvr hstep)
          refine ⟨v, nm, ?_⟩
          rw [storeFromObjects_empty_path, buildInto_append_ok hb1,
            buildInto_cons_error hstep, he]
      | ok s2 =>
          have hhas2 := rebuildInsert_adds hvr hcnr hstep
          cases hb2 : s2.buildInto l₂ with
          | error e =>
              obtain ⟨v, nm, he⟩ := isDuplicate_shape
                (buildInto_error_isDuplicate (fun x hx => hall x (by simp [hx])) hb2)
              refine ⟨v, nm, ?_⟩
              rw [storeFromObjects_empty_path, buildInto_append_ok hb1,
                buildInto_cons_ok hstep, buildInto_append_error hb2, he]
          | ok s3 =>
              have hhas3 := buildInto_mono hb2 hhas2
              have hcnr' : jsGet r' "_collection" = .str cn := by
                rw [← hcoll]; exact hcnr
              have hhas3' : collHasId s3 cn (jsGet r' "_id") = true := by
                rw [← hid]; exact hhas3
              obtain ⟨nm, hdup⟩ := rebuildInsert_dup hvr' hcnr' hhas3'
              refine ⟨jsGet r' "_id", nm, ?_⟩
              rw [storeFromObjects_empty_path, buildInto_append_ok hb1,
                buildInto_cons_ok hstep, buildInto_append_ok hb2,
                buildInto_cons_error hdup]

theorem all_valid_duplicate_pair_build_fails_witness :
    ∃ v nm, storeFromObjects
        [.obj [("_id", .num 1), ("_collection", .str "x")],
         .obj [("_id", .num 1), ("_collection", .str "x")]] "" ⟨[], []⟩ =
      .error (.insertionDuplicate v nm) :=
  all_valid_duplicate_pair_build_fails [] [] []
    (.obj [("_id", .num 1), ("_collection", .str "x")])
    (.obj [("_id", .num 1), ("_collection", .str "x")]) ⟨[], []⟩
    (by
      intro x hx
      simp only [List.nil_append, List.mem_cons, List.not_mem_nil, or_false] at hx
      rcases hx with rfl | rfl <;> rfl)
    rfl rfl

/-! ## Round-trip: serialize then rebuild -/

theorem serializedItems_eq (c : Collection) :
    c.serializedItems = c.items.map (fun kv => taggedItem c.name kv.2) := by
  unfold Collection.serializedItems Collection.all taggedItem
  rw [List.map_map]
  rfl

theorem serializeItems_eq_flatten (s : Store) :
    s.serializeItems = (s.colls.map (fun kv => kv.2.serializedItems)).flatten := by
  unfold Store.serializeItems
  have hgen : ∀ (l : List (String × Collection)) (init : List JsValue),
      l.foldl (fun acc kv => acc ++ kv.2.serializedItems) init =
        init ++ (l.map (fun kv => kv.2.serializedItems)).flatten := by
    intro l
    induction l with
    | nil => intro init; simp
    | cons x xs ih =>
        intro init
        simp only [List.foldl_cons, List.map_cons, List.flatten_cons]
        rw [ih, List.append_assoc]
  rw [hgen]
  simp

theorem jsGet_cons_id {k : JsValue} {rest : List (String × JsValue)} :
    jsGet (.obj (("_id", k) :: rest)) "_id" = k := rfl

theorem jsGet_tagged_coll {k v : JsValue} {rest : List (String × JsValue)} :
    jsGet (.obj (("_id", k) :: ("_collection", v) :: rest)) "_collection" = v := rfl

theorem wfItem_shape {k item : JsValue} (h : wfItem k item = true) :
    ∃ fields, item = .obj (("_id", k) :: fields) ∧ idTypeOk k = true ∧
      nodupKeys fields = true ∧
      ∀ kv ∈ fields, kv.1 ≠ "_id" ∧ kv.1 ≠ "_collection" := by
  unfold wfItem at h
  split at h
  · rename_i kh k0 fields
    simp only [Bool.and_eq_true] at h
    obtain ⟨⟨⟨hkh, hk0⟩, hty⟩, hfok⟩ := h
    have hkh' : kh = "_id" := by simpa using hkh
    have hk0' : k0 = k := eq_of_jsKeyEq hk0
    subst hkh'
    subst hk0'
    unfold fieldsOk at hfok
    simp only [Bool.and_eq_true, List.all_eq_true] at hfok
    refine ⟨fields, rfl, hty, hfok.1.1, ?_⟩
    intro kv hkv
    have hb := hfok.1.2 kv hkv
    exact ⟨bne_iff_ne.mp hb.1, bne_iff_ne.mp hb.2⟩
  · cases h

theorem wfColl_shape {name : String} {c : Collection} (h : wfColl name c = true) :
    c.name = name ∧ name ≠ "" ∧ c.items ≠ [] ∧ nodupKeys c.items = true ∧
      ∀ kv ∈ c.items, wfItem kv.1 kv.2 = true := by
  unfold wfColl at h
  simp only [Bool.and_eq_true, List.all_eq_true] at h
  obtain ⟨⟨⟨⟨h1, h2⟩, h3⟩, h4⟩, h5⟩ := h
  refine ⟨by simpa using h1, by simpa using h2, ?_, h4, h5⟩
  intro hempty
  rw [hempty] at h3
  simp at h3

theorem strnum_of_idTypeOk {k : JsValue} (h : idTypeOk k = true) :
    (k.isStr || k.isNum) = true := by
  cases k <;> simp_all [idTypeOk, JsValue.isStr, JsValue.isNum]

theorem beq_emptystr_of_idTypeOk {k : JsValue} (h : idTypeOk k = true) :
    (k == JsValue.str "") = false := by
  cases k <;> simp_all [idTypeOk, BEq.beq, jsKeyEq]

/-- `nodupKeys` of a cons, unfolded. -/
theorem nodupKeys_cons {κ α : Type} [BEq κ] {k : κ} {v : α} {rest : List (κ × α)}
    (h : nodupKeys ((k, v) :: rest) = true) :
    alHas rest k = false ∧ nodupKeys rest = true := by
  unfold nodupKeys at h
  rw [Bool.and_eq_true, Bool.not_eq_true'] at h
  exact h

/-- In a duplicate-free list, the keys left of an entry differ from it. -/
theorem not_has_left_of_nodup_middle {κ α : Type} [BEq κ] [PartialEquivBEq κ]
    {l tl : List (κ × α)} {k : κ} {v : α}
    (h : nodupKeys (l ++ (k, v) :: tl) = true) : alHas l k = false := by
  induction l with
  | nil => rfl
  | cons hd l ih =>
      obtain ⟨kh, vh⟩ := hd
      rw [List.cons_append] at h
      obtain ⟨hh, hrest⟩ := nodupKeys_cons h
      rw [alHas_append] at hh
      rw [Bool.or_eq_false_iff] at hh
      have hkkh : (k == kh) = false := by
        have h2 := hh.2
        unfold alHas alGet at h2
        cases hx : (k == kh) with
        | true => rw [hx] at h2; simp at h2
        | false => rfl
      have hkhk : (kh == k) = false := by
        cases hy : (kh == k)
        · rfl
        · exact absurd (BEq.symm hy) (by simp [hkkh])
      unfold alHas alGet
      simp only [hkhk, Bool.false_eq_true, if_false]
      exact ih hrest

/-- A key occurring in the list is found by `alHas`. -/
theorem alHas_of_mem_keys {α : Type} {l : List (String × α)} {q : String}
    (h : q ∈ l.map Prod.fst) : alHas l q = true := by
  induction l with
  | nil => simp at h
  | cons hd tl ih =>
      obtain ⟨kh, vh⟩ := hd
      simp only [List.map_cons, List.mem_cons] at h
      unfold alHas alGet
      rcases h with rfl | h
      · simp
      · by_cases hk : (kh == q) = true
        · simp [hk]
        · rw [Bool.not_eq_true] at hk
          simp only [hk, Bool.false_eq_true, if_false]
          exact ih h

/-- Spreading fields with fresh, duplicate-free keys is plain append. -/
theorem spreadFields_append {extra : List (String × JsValue)} :
    ∀ {base : List (String × JsValue)},
      (∀ q ∈ extra.map Prod.fst, alHas base q = false) →
      nodupKeys extra = true →
      spreadFields base extra = base ++ extra := by
  induction extra with
  | nil =>
      intro base hd hn
      simp [spreadFields]
  | cons hd0 tl ih =>
      intro base hfr hn
      obtain ⟨k, v⟩ := hd0
      obtain ⟨hktl, hntl⟩ := nodupKeys_cons hn
      have hbk : alHas base k = false := hfr k (by simp)
      show spreadFields (alSet base k v) tl = base ++ (k, v) :: tl
      rw [alSet_append_of_not_has hbk]
      rw [ih ?fresh hntl]
      · simp
      case fresh =>
        intro q hq
        rw [alHas_append, Bool.or_eq_false_iff]
        refine ⟨hfr q (by simp [hq]), ?_⟩
        have hqk : (k == q) = false := by
          rw [beq_eq_false_iff_ne]
          intro hkq
          subst hkq
          rw [alHas_of_mem_keys hq] at hktl
          cases hktl
        simp [alHas, alGet, hqk]

/-- Direct success rule for `validateSerializedItem`. -/
theorem validateSerializedItem_ok_of {item : JsValue}
    (h1 : (jsGet item "_id" == JsValue.str "") = false)
    (h2 : (jsGet item "_collection" == JsValue.str "") = false)
    (h3 : ((jsGet item "_id").isStr || (jsGet item "_id").isNum) = true)
    (h4 : (jsGet item "_collection").isStr = true) :
    validateSerializedItem item = .ok () := by
  simp [validateSerializedItem, itemHasProp_string, itemHasProp_number, h1, h2, h3, h4]

/-- Direct success rule for `_validateInsert`. -/
theorem validateInsert_ok_of {c : Collection} {item : JsValue}
    (h1 : ((jsGet item "_id").isStr || (jsGet item "_id").isNum) = true)
    (h2 : alHas c.items (jsGet item "_id") = false) :
    c.validateInsert item = .ok () := validateInsert_ok_iff.mpr ⟨h1, h2⟩

/-- Direct success rule for `_insertNoSave`. -/
theorem insertNoSave_ok_of (c : Collection) (item : JsValue)
    (h1 : ((jsGet item "_id").isStr || (jsGet item "_id").isNum) = true)
    (h2 : alHas c.items (jsGet item "_id") = false) :
    c.insertNoSave item = .ok ⟨c.name, alSet c.items (jsGet item "_id") item⟩ := by
  simp only [Collection.insertNoSave, validateInsert_ok_of h1 h2]

/-- `collections` finds a collection stored at the end of the registry. -/
theorem collectionsOp_present (fp : String) {name : String} {done : List (String × Collection)}
    {c0 : Collection} (hfresh : alHas done name = false) :
    Store.collectionsOp ⟨fp, done ++ [(name, c0)]⟩ name =
      (c0, ⟨fp, done ++ [(name, c0)]⟩) := by
  have hget := alGet_append_last (c := c0) hfresh (by simp : ((name == name) = true))
  simp only [Store.collectionsOp, hget]

/-- `collections` creates and registers a fresh collection. -/
theorem collectionsOp_new (fp : String) {name : String} {done : List (String × Collection)}
    (hfresh : alHas done name = false) :
    Store.collectionsOp ⟨fp, done⟩ name =
      (⟨name, []⟩, ⟨fp, done ++ [(name, Collection.mk name [])]⟩) := by
  simp only [Store.collectionsOp, alGet_of_not_has hfresh, alSet_append_of_not_has hfresh]

/-- The serialized form of a well-formed record: the two reserved keys in
front, the user fields unchanged behind them. -/
theorem taggedItem_of_wf {name : String} {k : JsValue} {fields : List (String × JsValue)}
    (hnd : nodupKeys fields = true)
    (hres : ∀ kv ∈ fields, kv.1 ≠ "_id" ∧ kv.1 ≠ "_collection") :
    taggedItem name (.obj (("_id", k) :: fields)) =
      .obj (("_id", k) :: ("_collection", .str name) :: fields) := by
  unfold taggedItem
  rw [jsGet_cons_id]
  rw [show objFields (JsValue.obj (("_id", k) :: fields)) = ("_id", k) :: fields from rfl]
  rw [show ((("_id", k) :: fields).filter (fun kv => kv.1 != "_id")) =
      fields.filter (fun kv => kv.1 != "_id") from rfl]
  rw [List.filter_eq_self.mpr (fun kv hkv => bne_iff_ne.mpr (hres kv hkv).1)]
  rw [spreadFields_append ?fr hnd]
  · rfl
  case fr =>
    intro q hq
    have hq1 : q ≠ "_id" := by
      obtain ⟨kv, hkv, hkveq⟩ := List.mem_map.mp hq
      rw [← hkveq]
      exact (hres kv hkv).1
    have hq2 : q ≠ "_collection" := by
      obtain ⟨kv, hkv, hkveq⟩ := List.mem_map.mp hq
      rw [← hkveq]
      exact (hres kv hkv).2
    simp [alHas, alGet, beq_eq_false_iff_ne.mpr (Ne.symm hq1),
      beq_eq_false_iff_ne.mpr (Ne.symm hq2)]

/-- The `rebuildInsert` step on the serialized form of a well-formed
record, for a store whose `collections(name)` call resolves to the
collection `⟨name, pre⟩` at the end of the registry: the record re-enters
exactly as it was, appended to `pre`. -/
theorem rebuildInsert_tagged_core {fp name : String} {s : Store}
    {pre : List (JsValue × JsValue)} {done : List (String × Collection)}
    {k item : JsValue}
    (hcop : s.collectionsOp name = (⟨name, pre⟩, ⟨fp, done ++ [(name, ⟨name, pre⟩)]⟩))
    (hfresh : alHas done name = false) (hname : name ≠ "")
    (hwf : wfItem k item = true) (hkfresh : alHas pre k = false) :
    s.rebuildInsert (taggedItem name item) =
      .ok ⟨fp, done ++ [(name, ⟨name, pre ++ [(k, item)]⟩)]⟩ := by
  obtain ⟨fields, hitem, hty, hnd, hres⟩ := wfItem_shape hwf
  subst hitem
  rw [taggedItem_of_wf hnd hres]
  have hvt : validateSerializedItem
      (.obj (("_id", k) :: ("_collection", .str name) :: fields)) = .ok () := by
    apply validateSerializedItem_ok_of
    · rw [jsGet_cons_id]
      exact beq_emptystr_of_idTypeOk hty
    · rw [jsGet_tagged_coll, jsKeyEq_str]
      exact beq_eq_false_iff_ne.mpr hname
    · rw [jsGet_cons_id]
      exact strnum_of_idTypeOk hty
    · rw [jsGet_tagged_coll]
      rfl
  have hdata : ((objFields (JsValue.obj (("_id", k) :: ("_collection", JsValue.str name) ::
      fields))).filter (fun kv => kv.1 != "_id" && kv.1 != "_collection")) = fields := by
    rw [show ((objFields (JsValue.obj (("_id", k) :: ("_collection", JsValue.str name) ::
        fields))).filter (fun kv => kv.1 != "_id" && kv.1 != "_collection")) =
      fields.filter (fun kv => kv.1 != "_id" && kv.1 != "_collection") from rfl]
    apply List.filter_eq_self.mpr
    intro kv hkv
    rw [Bool.and_eq_true]
    exact ⟨bne_iff_ne.mpr (hres kv hkv).1, bne_iff_ne.mpr (hres kv hkv).2⟩
  simp only [Store.rebuildInsert, hvt, jsGet_tagged_coll, jsGet_cons_id, hdata, hcop]
  have hspread : spreadFields [("_id", k)] fields = ("_id", k) :: fields := by
    rw [spreadFields_append ?fr2 hnd]
    · rfl
    case fr2 =>
      intro q hq
      have hq1 : q ≠ "_id" := by
        obtain ⟨kv, hkv, hkveq⟩ := List.mem_map.mp hq
        rw [← hkveq]
        exact (hres kv hkv).1
      simp [alHas, alGet, beq_eq_false_iff_ne.mpr (Ne.symm hq1)]
  rw [hspread]
  have hins := insertNoSave_ok_of ⟨name, pre⟩ (.obj (("_id", k) :: fields)) ?ty ?fresh
  case ty =>
    rw [jsGet_cons_id]
    exact strnum_of_idTypeOk hty
  case fresh =>
    rw [jsGet_cons_id]
    exact hkfresh
  rw [jsGet_cons_id] at hins
  rw [hins]
  simp only
  rw [alSet_append_of_not_has hkfresh, alSet_append_last hfresh (by simp)]

/-- Replaying the serialized suffix of a well-formed collection appends its
records, in order, to the prefix already rebuilt. -/
theorem buildInto_tagged (fp name : String) :
    ∀ (suf pre : List (JsValue × JsValue)) (done : List (String × Collection)),
      alHas done name = false → name ≠ "" →
      (∀ kv ∈ suf, wfItem kv.1 kv.2 = true) →
      nodupKeys (pre ++ suf) = true →
      Store.buildInto ⟨fp, done ++ [(name, ⟨name, pre⟩)]⟩
          (suf.map (fun kv => taggedItem name kv.2)) =
        .ok ⟨fp, done ++ [(name, ⟨name, pre ++ suf⟩)]⟩ := by
  intro suf
  induction suf with
  | nil =>
      intro pre done hfresh hname hwf hnd
      simp [Store.buildInto]
  | cons hd tl ih =>
      intro pre done hfresh hname hwf hnd
      obtain ⟨k, item⟩ := hd
      have hkfresh : alHas pre k = false := not_has_left_of_nodup_middle hnd
      have hstep := rebuildInsert_tagged_core
        (collectionsOp_present fp hfresh) hfresh hname (hwf (k, item) (by simp)) hkfresh
      rw [List.map_cons]
      rw [buildInto_cons_ok hstep]
      have hnd' : nodupKeys ((pre ++ [(k, item)]) ++ tl) = true := by
        rw [List.append_assoc]
        exact hnd
      rw [ih (pre ++ [(k, item)]) done hfresh hname
        (fun kv hkv => hwf kv (by simp [hkv])) hnd']
      rw [List.append_assoc]
      rfl

/-- Replaying the serialization of a list of well-formed collections
registers them, in order, behind the collections already rebuilt. -/
theorem buildInto_store (fp : String) :
    ∀ (rem done : List (String × Collection)),
      nodupKeys (done ++ rem) = true →
      (∀ kv ∈ rem, wfColl kv.1 kv.2 = true) →
      Store.buildInto ⟨fp, done⟩
          ((rem.map (fun kv => kv.2.serializedItems)).flatten) =
        .ok ⟨fp, done ++ rem⟩ := by
  intro rem
  induction rem with
  | nil =>
      intro done hnd hwf
      simp [Store.buildInto]
  | cons hd tl ih =>
      intro done hnd hwf
      obtain ⟨name, c⟩ := hd
      obtain ⟨hcname, hname, hne, hcnd, hitems⟩ := wfColl_shape (hwf (name, c) (by simp))
      have hfresh : alHas done name = false := not_has_left_of_nodup_middle hnd
      rw [List.map_cons, List.flatten_cons]
      rw [serializedItems_eq c, hcname]
      cases hcit : c.items with
      | nil => exact absurd hcit hne
      | cons i0 irest =>
          obtain ⟨k0, it0⟩ := i0
          rw [List.map_cons, List.cons_append]
          have hstep := rebuildInsert_tagged_core
            (collectionsOp_new fp hfresh) hfresh hname
            (hitems (k0, it0) (by rw [hcit]; simp)) (by rfl)
          simp only [List.nil_append] at hstep
          rw [buildInto_cons_ok hstep]
          have hA := buildInto_tagged fp name irest [(k0, it0)] done hfresh hname
            (fun kv hkv => hitems kv (by rw [hcit]; simp [hkv]))
            (by rw [hcit] at hcnd; exact hcnd)
          rw [buildInto_append_ok hA]
          have hcoll_eq : (⟨name, [(k0, it0)] ++ irest⟩ : Collection) = c := by
            show (⟨name, (k0, it0) :: irest⟩ : Collection) = c
            rw [← hcit]
            rw [show (name, c).2.name = c.name from rfl] at hcname
            rw [show (name, c).1 = name from rfl] at hcname
            rw [← hcname]
          rw [hcoll_eq]
          have hnd' : nodupKeys ((done ++ [(name, c)]) ++ tl) = true := by
            rw [List.append_assoc]
            exact hnd
          rw [ih (done ++ [(name, c)]) hnd'
            (fun kv hkv => hwf kv (by simp [hkv]))]
          rw [List.append_assoc]
          rfl

/-- **C1 amended.** For every well-formed store — collection names
non-empty and duplicate-free, every collection non-empty with
duplicate-free identifiers, every record the `{ _id: k, ...fields }` object
the insertion paths create, ids non-empty strings or numbers, and no user
field named `_id` or `_collection` (all JSON-representable) — rebuilding
from the parse of `serialize()` via `storeFromObjects` reproduces the
store exactly: same collection names, identical records field-for-field,
and identical counts (the registries are equal). -/
theorem roundtrip_wf_store :
    ∀ (s : Store) (fs : FileSys), wfStore s = true →
      storeFromObjects s.serializeItems "" fs = .ok ⟨"", s.colls⟩ := by
  intro s fs hwf
  unfold wfStore at hwf
  rw [Bool.and_eq_true, List.all_eq_true] at hwf
  rw [storeFromObjects_empty_path, serializeItems_eq_flatten]
  exact buildInto_store "" s.colls [] hwf.1 (fun kv hkv => hwf.2 kv hkv)

theorem roundtrip_wf_store_witness :
    wfStore ⟨"", [("users", ⟨"users",
        [(.num 1, .obj [("_id", .num 1), ("name", .str "a")]),
         (.str "x", .obj [("_id", .str "x"), ("tag", .bool true)])]⟩),
      ("posts", ⟨"posts", [(.num 1, .obj [("_id", .num 1)])]⟩)]⟩ = true ∧
      storeFromObjects
          (Store.serializeItems ⟨"", [("users", ⟨"users",
            [(.num 1, .obj [("_id", .num 1), ("name", .str "a")]),
             (.str "x", .obj [("_id", .str "x"), ("tag", .bool true)])]⟩),
          ("posts", ⟨"posts", [(.num 1, .obj [("_id", .num 1)])]⟩)]⟩) "" ⟨[], []⟩ =
        .ok ⟨"", [("users", ⟨"users",
            [(.num 1, .obj [("_id", .num 1), ("name", .str "a")]),
             (.str "x", .obj [("_id", .str "x"), ("tag", .bool true)])]⟩),
          ("posts", ⟨"posts", [(.num 1, .obj [("_id", .num 1)])]⟩)]⟩ :=
  ⟨rfl, roundtrip_wf_store ⟨"", [("users", ⟨"users",
      [(.num 1, .obj [("_id", .num 1), ("name", .str "a")]),
       (.str "x", .obj [("_id", .str "x"), ("tag", .bool true)])]⟩),
    ("posts", ⟨"posts", [(.num 1, .obj [("_id", .num 1)])]⟩)]⟩ ⟨[], []⟩ rfl⟩

/-- **C1 counterexample.** The round-trip is not exact for *every* store:
a registered-but-empty collection (reachable by `openStore("")` followed by
`collections("a")`, first conjunct) contributes no tagged records to
`serialize()`, so the rebuilt store does not contain it — the collection
names differ (`["a"]` before, `[]` after). -/
theorem roundtrip_loses_empty_collection :
    (Store.collectionsOp ⟨"", []⟩ "a").2 = ⟨"", [("a", Collection.mk "a" [])]⟩ ∧
      Store.collNames ⟨"", [("a", Collection.mk "a" [])]⟩ = ["a"] ∧
      Store.serializeItems ⟨"", [("a", Collection.mk "a" [])]⟩ = [] ∧
      storeFromObjects
          (Store.serializeItems ⟨"", [("a", Collection.mk "a" [])]⟩) "" ⟨[], []⟩ =
        .ok ⟨"", []⟩ ∧
      Store.collNames ⟨"", []⟩ = [] :=
  ⟨rfl, rfl, rfl, rfl, rfl⟩

end Storaj
